import Mathlib

/-!
Verification development for the HexaTiles build pipeline
(`internal/build/build.go`, `internal/props/quantize.go`, the property
filter, `internal/parquet/reader.go`, and `internal/h3`).

Shallow embedding conventions:
* Go `float64` arithmetic is modelled over `ℚ` (exact rationals) with
  `goRound` for `math.Round` (round half away from zero) and `goTrunc`
  for the `int64(x)` conversion (truncation toward zero).
* Go maps `map[string]any` are modelled as association lists
  `List (String × PropValue)`; map assignment is `setKey`.
* Dynamically typed property values (`any`) are the tagged variant
  `PropValue` (null / bool / int64 / float64 / string), following the
  type switches in the source.
* External library calls (h3-go's `Cell.IsValid`, `Cell.Boundary`,
  `IndexToString`, `Cell.Resolution`, stdlib `filepath.Match`,
  `encoding/json.Marshal`, float formatting) are not code of this
  repository; they are passed as parameters in the `LibEnv` record so
  that every repository function stays a total Lean function over them.
-/

/-- Tagged property value, modelling Go `any` restricted to the value
kinds the pipeline handles (null, bool, integers, floats, strings). -/
inductive PropValue where
  | null : PropValue
  | bool (b : Bool) : PropValue
  | int (n : ℤ) : PropValue
  | float (x : ℚ) : PropValue
  | str (s : String) : PropValue
deriving DecidableEq, Repr

/-- Go `math.Round`: round to nearest, half away from zero.
For `0 ≤ x` this is `⌊x + 1/2⌋`, which is Mathlib's `round`. -/
def goRound (x : ℚ) : ℤ :=
  if 0 ≤ x then round x else -round (-x)

/-- Go conversion `int64(x)` from `float64`: truncation toward zero. -/
def goTrunc (x : ℚ) : ℤ :=
  if 0 ≤ x then ⌊x⌋ else -⌊-x⌋

/-- `quantizeFloat64` from `internal/props/quantize.go`:
`quantized := math.Round(value/step) * step`, returning
(new value, absolute difference, changed flag). -/
def quantizeFloat64 (value step : ℚ) : ℚ × ℚ × Bool :=
  if step ≤ 0 then (value, 0, false)
  else if |(goRound (value / step) : ℚ) * step - value| = 0 then (value, 0, false)
  else ((goRound (value / step) : ℚ) * step,
        |(goRound (value / step) : ℚ) * step - value|, true)

/-- `quantizeInt64` from `internal/props/quantize.go`:
`quantized := int64(math.Round(float64(value)/step) * step)`. -/
def quantizeInt64 (value : ℤ) (step : ℚ) : ℤ × ℚ × Bool :=
  if step ≤ 0 then (value, 0, false)
  else if goTrunc ((goRound ((value : ℚ) / step) : ℚ) * step) = value then
    (value, 0, false)
  else if |(goTrunc ((goRound ((value : ℚ) / step) : ℚ) * step) : ℚ) - (value : ℚ)| = 0 then
    (value, 0, false)
  else
    (goTrunc ((goRound ((value : ℚ) / step) : ℚ) * step),
     |(goTrunc ((goRound ((value : ℚ) / step) : ℚ) * step) : ℚ) - (value : ℚ)|, true)

/-- `props.Quantizer`: numeric rounding rules for feature properties. -/
structure Quantizer where
  FloatStep : ℚ
  IntStep : ℚ
  FieldSteps : List (String × ℚ)
deriving DecidableEq, Repr

/-- `props.Result`: quantization statistics for one feature.
`FieldErrors` lists the per-key absolute errors of changed entries
(Go accumulates them in a map; keys here are unique per property map). -/
structure QuantResult where
  TotalAbsError : ℚ
  FieldErrors : List (String × ℚ)
  Changes : ℕ
deriving DecidableEq, Repr

/-- `Quantizer.lookupStep`: per-field override if present, else the
type default (float step for floats and `json.Number`, int step for the
integer kinds, `0` otherwise). -/
def Quantizer.lookupStep (q : Quantizer) (key : String) (value : PropValue) : ℚ :=
  match q.FieldSteps.lookup key with
  | some step => step
  | none =>
    match value with
    | .float _ => q.FloatStep
    | .int _ => q.IntStep
    | _ => 0

/-- One iteration of the loop body of `Quantizer.Apply` for a single
entry: skip `nil` values, skip when the effective step is `≤ 0`,
quantize floats with `quantizeFloat64` and integers with
`quantizeInt64`, and pass through strings and bools unchanged.
Returns (new value, absolute error contributed, changed flag). -/
def Quantizer.applyValue (q : Quantizer) (key : String) (value : PropValue) :
    PropValue × ℚ × Bool :=
  match value with
  | .null => (value, 0, false)
  | .float x =>
    if q.lookupStep key (.float x) ≤ 0 then (.float x, 0, false)
    else
      (if (quantizeFloat64 x (q.lookupStep key (.float x))).2.2 then
        .float (quantizeFloat64 x (q.lookupStep key (.float x))).1
       else .float x,
       (quantizeFloat64 x (q.lookupStep key (.float x))).2.1,
       (quantizeFloat64 x (q.lookupStep key (.float x))).2.2)
  | .int n =>
    if q.lookupStep key (.int n) ≤ 0 then (.int n, 0, false)
    else
      (if (quantizeInt64 n (q.lookupStep key (.int n))).2.2 then
        .int (quantizeInt64 n (q.lookupStep key (.int n))).1
       else .int n,
       (quantizeInt64 n (q.lookupStep key (.int n))).2.1,
       (quantizeInt64 n (q.lookupStep key (.int n))).2.2)
  | v =>
    if q.lookupStep key v ≤ 0 then (v, 0, false)
    else (v, 0, false)

/-- `Quantizer.Apply`: rounds numeric values according to the
configured rules. Go mutates the map in place and accumulates a
`Result`; here the updated association list is returned together with
the statistics. Each loop iteration touches only its own entry, so the
loop is the entrywise map below; `Changes` counts changed entries and
the error accumulators sum their absolute differences. -/
def Quantizer.Apply (q : Quantizer) (props : List (String × PropValue)) :
    List (String × PropValue) × QuantResult :=
  let processed := props.map fun kv => (kv.1, q.applyValue kv.1 kv.2)
  (processed.map fun e => (e.1, e.2.1),
   { TotalAbsError := (processed.map fun e => e.2.2.1).sum
     FieldErrors := (processed.filter fun e => e.2.2.2).map fun e => (e.1, e.2.2.1)
     Changes := (processed.filter fun e => e.2.2.2).length })

/-- Byte-order comparison of strings (Go `sort.Strings` order;
codepoint order coincides with UTF-8 byte order). -/
def strLe (a b : String) : Bool :=
  go a.data b.data
where
  go : List Char → List Char → Bool
    | [], _ => true
    | _ :: _, [] => false
    | c :: cs, d :: ds =>
      if c.toNat < d.toNat then true
      else if d.toNat < c.toNat then false
      else go cs ds

/-- `sort.Strings`. -/
def sortStrings (l : List String) : List String :=
  List.insertionSort (fun a b => strLe a b = true) l

/-- `strings.TrimSpace`: strip leading and trailing whitespace. -/
def trimSpace (s : String) : String :=
  String.mk (((s.data.dropWhile Char.isWhitespace).reverse.dropWhile
    Char.isWhitespace).reverse)

/-- ASCII lowering of one character (`strings.ToLower` restricted to
the ASCII alias names it is compared against). -/
def lowerChar (c : Char) : Char :=
  if 'A' ≤ c ∧ c ≤ 'Z' then Char.ofNat (c.toNat + 32) else c

/-- `strings.ToLower`. -/
def toLowerStr (s : String) : String :=
  String.mk (s.data.map lowerChar)

/-- The `0x`/`0X` prefix test of `stringToCell`
(`strings.HasPrefix`). -/
def hexPrefixed (s : String) : Bool :=
  match s.data with
  | c1 :: c2 :: _ => c1 = '0' ∧ (c2 = 'x' ∨ c2 = 'X')
  | _ => false

/-- `props.Filter` (named `PropFilter` here because `Filter` is taken
by Mathlib): which properties are retained on features.
`includes` is the deduplicated, trimmed allow-list in CLI order (the Go
struct stores the same content twice, as set `includes` and as order
list `includeOrder`); `dropPatterns` are the trimmed glob patterns. -/
structure PropFilter where
  includes : List String
  dropPatterns : List String
  keepAllByDefault : Bool
deriving DecidableEq, Repr

/-- `props.NewFilter`: trims entries, drops empties, deduplicates the
allow-list preserving first occurrence, and sorts the drop patterns. -/
def NewFilter (includeList dropList : List String) (keepAllByDefault : Bool) : PropFilter :=
  let includes := includeList.foldl
    (fun acc item =>
      let key := trimSpace item
      if key = "" then acc
      else if acc.contains key then acc
      else acc ++ [key]) []
  let dropPatterns := dropList.foldl
    (fun acc pat =>
      let trimmed := trimSpace pat
      if trimmed = "" then acc else acc ++ [trimmed]) []
  { includes := includes
    dropPatterns := sortStrings dropPatterns
    keepAllByDefault := keepAllByDefault }

/-- `Filter.shouldKeep`. `gm` is stdlib `path/filepath.Match`
(a pattern whose match errors is treated as not matching, since the Go
code discards the error: `if ok, _ := filepath.Match(...)`). -/
def PropFilter.shouldKeep (gm : String → String → Bool) (f : PropFilter) (key : String) : Bool :=
  if f.dropPatterns.any fun pat => gm pat key then false
  else if f.includes.isEmpty then true
  else f.includes.contains key

/-- `Filter.Apply`: with a non-empty allow-list, iterate the allow-list
and keep present, not-denied keys; otherwise apply the default policy
(keep-all-minus-denied when `keepAllByDefault`, else keep none). Go's
`nil`-map input short-circuit collapses to the empty list here. -/
def PropFilter.Apply (gm : String → String → Bool) (f : PropFilter)
    (props : List (String × PropValue)) : List (String × PropValue) :=
  if f.includes ≠ [] then
    f.includes.filterMap fun key =>
      match props.lookup key with
      | some v => if f.shouldKeep gm key then some (key, v) else none
      | none => none
  else if f.keepAllByDefault then
    props.filter fun kv => f.shouldKeep gm kv.1
  else []

/-- `Filter.Keys`: the explicitly included keys in CLI order. -/
def PropFilter.Keys (f : PropFilter) : List String := f.includes

/-- External collaborators of the embedded code: the h3 library
(validity, resolution, boundary, canonical hex string), stdlib glob
matching, JSON serialization and float formatting. These are not code
of this repository, so they are parameters of the embedding. -/
structure LibEnv where
  isValid : ℕ → Bool
  resolution : ℕ → ℤ
  indexToString : ℕ → String
  boundary : ℕ → Except String (List (ℚ × ℚ))
  globMatch : String → String → Bool
  marshal : List (String × PropValue) → Option String
  formatFloat : ℚ → String

/-- Digit value as in `strconv` (0-9, a-z, A-Z; Go folds case with
`lower(c)`); other characters are syntax errors. -/
def digitVal (c : Char) : Option ℕ :=
  if '0' ≤ c ∧ c ≤ '9' then some (c.toNat - '0'.toNat)
  else if 'a' ≤ c ∧ c ≤ 'z' then some (c.toNat - 'a'.toNat + 10)
  else if 'A' ≤ c ∧ c ≤ 'Z' then some (c.toNat - 'A'.toNat + 10)
  else none

/-- Digit accumulation loop of `strconv.ParseUint` for a fixed base:
any out-of-base character is a syntax error. -/
def parseUintDigits (base : ℕ) : List Char → ℕ → Option ℕ
  | [], acc => some acc
  | c :: cs, acc =>
    match digitVal c with
    | some d => if d < base then parseUintDigits base cs (acc * base + d) else none
    | none => none

/-- Rendered `strconv.NumError` for a syntax failure. -/
def numErrorSyntax (s : String) : String :=
  "strconv.ParseUint: parsing \"" ++ s ++ "\": invalid syntax"

/-- Rendered `strconv.NumError` for an out-of-range failure. -/
def numErrorRange (s : String) : String :=
  "strconv.ParseUint: parsing \"" ++ s ++ "\": value out of range"

/-- `strconv.ParseUint(s, base, 64)` for an explicit base (10 or 16):
empty input and bad digits are syntax errors, values ≥ 2^64 are range
errors. -/
def parseUint (s : String) (base : ℕ) : Except String ℕ :=
  if s = "" then .error (numErrorSyntax s)
  else
    match parseUintDigits base s.data 0 with
    | none => .error (numErrorSyntax s)
    | some v => if v < 2 ^ 64 then .ok v else .error (numErrorRange s)

/-- `stringToCell` from `internal/parquet/reader.go`: strip an optional
`0x`/`0X` prefix, parse as hexadecimal, fall back to decimal once, and
wrap the (second) failure as `parse H3 string %q: %w`. -/
def stringToCell (s : String) : Except String ℕ :=
  let t := if hexPrefixed s then String.mk (s.data.drop 2) else s
  match parseUint t 16 with
  | .ok v => .ok v
  | .error _ =>
    match parseUint t 10 with
    | .ok v => .ok v
    | .error e2 => .error ("parse H3 string \"" ++ t ++ "\": " ++ e2)

/-- The fixed alias list `possibleH3Names`. -/
def possibleH3Names : List String :=
  ["h3", "h3_id", "h3index", "h3_index", "h3id", "cell", "cell_id"]

/-- `isH3Column`: case-insensitive membership in the alias list. -/
def isH3Column (name : String) : Bool :=
  possibleH3Names.contains (toLowerStr name)

/-- `parseCell`: decode one column value into (cell, best-effort string,
optional error). The Go `[]byte` and `fmt.Stringer` cases behave as the
string case; the unsigned integer cases behave as the non-negative
integer case; `bool` falls into the `default` case, where
`fmt.Sprint(v)` is `"true"`/`"false"` and `stringToCell` then fails. -/
def parseCell (lib : LibEnv) (value : PropValue) : ℕ × String × Option String :=
  match value with
  | .null => (0, "", none)
  | .str s =>
    let trimmed := trimSpace s
    if trimmed = "" then (0, "", none)
    else
      match stringToCell trimmed with
      | .error e => (0, trimmed, some e)
      | .ok cell => (cell, lib.indexToString cell, none)
  | .int n =>
    if n < 0 then (0, toString n, some ("negative integer " ++ toString n))
    else (n.toNat, lib.indexToString n.toNat, none)
  | .float x =>
    if x < 0 then (0, lib.formatFloat x, some ("negative float " ++ lib.formatFloat x))
    else ((goTrunc x).toNat, lib.indexToString (goTrunc x).toNat, none)
  | .bool b =>
    let s := if b then "true" else "false"
    match stringToCell s with
    | .error e => (0, s, some e)
    | .ok cell => (cell, lib.indexToString cell, none)

/-- Classification of a `extractCell` failure: the sentinel
`ErrNoH3Column` versus any other (wrapped parse / invalid-cell) error. -/
inductive CellError where
  | noH3Column : CellError
  | other (msg : String) : CellError
deriving DecidableEq, Repr

/-- Rendered error text (`ErrNoH3Column` has this fixed message). -/
def renderCellError : CellError → String
  | .noH3Column => "parquet file missing required H3 column"
  | .other msg => msg

/-- The key scan loop of `extractCell`: for each candidate key (in
sorted order), parse the value; a parse error or an invalid non-zero
index returns immediately; a non-zero valid index succeeds; a zero
index with no error falls through to the next key; exhaustion yields
`ErrNoH3Column`. -/
def extractCellLoop (lib : LibEnv) (row : List (String × PropValue)) :
    List String → ℕ × String × Option CellError
  | [] => (0, "", some .noH3Column)
  | key :: rest =>
    if isH3Column key then
      match parseCell lib ((row.lookup key).getD .null) with
      | (_, cellString, some e) =>
        (0, cellString, some (.other ("column " ++ key ++ ": " ++ e)))
      | (idx, cellString, none) =>
        if idx ≠ 0 then
          if ¬ lib.isValid idx then
            let cs := if cellString = "" then lib.indexToString idx else cellString
            (0, cs, some (.other ("column " ++ key ++ ": invalid H3 cell")))
          else
            let cs := if cellString = "" then lib.indexToString idx else cellString
            (idx, cs, none)
        else extractCellLoop lib row rest
    else extractCellLoop lib row rest

/-- `extractCell` from `internal/parquet/reader.go`: empty rows return
a zero cell with no error; otherwise the keys are sorted and scanned. -/
def extractCell (lib : LibEnv) (row : List (String × PropValue)) :
    ℕ × String × Option CellError :=
  if row = [] then (0, "", none)
  else extractCellLoop lib row (sortStrings (row.map Prod.fst))

/-- `extractProperties`: every non-alias column becomes a property,
iterating keys in sorted order (`normalizeValue` is the identity on the
modelled value kinds: `[]byte` is already collapsed into strings). -/
def extractProperties (row : List (String × PropValue)) : List (String × PropValue) :=
  (sortStrings (row.map Prod.fst)).filterMap fun key =>
    if isH3Column key then none
    else (row.lookup key).map fun v => (key, v)

/-- `parquet.Row`: one decoded row. -/
structure Row where
  RowNumber : ℕ
  Cell : ℕ
  CellString : String
  Resolution : ℤ
  Properties : List (String × PropValue)
  Err : Option String
deriving DecidableEq, Repr

/-- The per-row construction in `Reader.fillBuffer`: a parse error is
wrapped as `row %d: %w` with resolution −1; a zero cell without error
becomes the wrapped `ErrNoH3Column`; otherwise the canonical string is
defaulted from the index and the resolution computed from the cell. -/
def decodeRow (lib : LibEnv) (rowNumber : ℕ)
    (rowMap : List (String × PropValue)) : Row :=
  let props := extractProperties rowMap
  match extractCell lib rowMap with
  | (_, cellString, some e) =>
    { RowNumber := rowNumber, Cell := 0, CellString := cellString
      Resolution := -1, Properties := props
      Err := some ("row " ++ toString rowNumber ++ ": " ++ renderCellError e) }
  | (cell, cellString, none) =>
    if cell = 0 then
      { RowNumber := rowNumber, Cell := 0, CellString := cellString
        Resolution := -1, Properties := props
        Err := some ("row " ++ toString rowNumber ++ ": " ++
          renderCellError .noH3Column) }
    else
      { RowNumber := rowNumber, Cell := cell
        CellString := if cellString = "" then lib.indexToString cell else cellString
        Resolution := lib.resolution cell, Properties := props, Err := none }

/-- `ringClosed` from `internal/h3/geom.go`: rings shorter than 2
points are not closed; otherwise first and last point must agree in
both coordinates. -/
def ringClosed (ring : List (ℚ × ℚ)) : Bool :=
  if ring.length < 2 then false
  else
    match ring.head?, ring.getLast? with
    | some f, some l => decide (f.1 = l.1 ∧ f.2 = l.2)
    | _, _ => false

/-- `h3geom.PolygonFromCell`: reject invalid cells, compute the
boundary (library call), reject empty boundaries, map each vertex
(lat, lng) to a `[lng, lat]` point, and append the first vertex when
the ring is not already closed. -/
def polygonFromCell (lib : LibEnv) (cell : ℕ) : Except String (List (ℚ × ℚ)) :=
  if ¬ lib.isValid cell then .error "invalid H3 cell index"
  else
    match lib.boundary cell with
    | .error e => .error ("compute boundary: " ++ e)
    | .ok boundary =>
      if boundary = [] then
        .error ("empty boundary for cell " ++ lib.indexToString cell)
      else
        let ring := boundary.map fun v => (v.2, v.1)
        if ringClosed ring then .ok ring
        else
          match ring with
          | [] => .ok ring
          | p :: _ => .ok (ring ++ [p])

/-- Bounding box `[minLng, minLat, maxLng, maxLat]` of a ring, the
value of orb's `Polygon.Bound` used by `buildFeature`. -/
def ringBound (ring : List (ℚ × ℚ)) : ℚ × ℚ × ℚ × ℚ :=
  match ring with
  | [] => (0, 0, 0, 0)
  | p :: rest =>
    rest.foldl
      (fun acc q =>
        (min acc.1 q.1, min acc.2.1 q.2, max acc.2.2.1 q.1, max acc.2.2.2 q.2))
      (p.1, p.2, p.1, p.2)

/-- `ndjson.Feature` as written by the sink. -/
structure Feature where
  ID : String
  Geometry : List (ℚ × ℚ)
  Properties : List (String × PropValue)
  BBox : Option (ℚ × ℚ × ℚ × ℚ)
deriving DecidableEq, Repr

/-- The zero `Feature`, Go's zero value for the struct field. -/
def emptyFeature : Feature :=
  { ID := "", Geometry := [], Properties := [], BBox := none }

/-- The zero `props.Result`. -/
def emptyQuantResult : QuantResult :=
  { TotalAbsError := 0, FieldErrors := [], Changes := 0 }

/-- `build.Options`, restricted to the fields the pipeline logic reads
(paths, binary overrides and metadata feed only I/O and the external
tile tools). -/
structure Options where
  MinZoom : ℤ
  MaxZoom : ℤ
  MinResolution : ℤ
  MaxResolution : ℤ
  PropertyInclude : List String
  PropertyDrop : List String
  Simplify : Bool
  Threads : ℤ
  PropertyByteCap : ℤ
deriving DecidableEq, Repr

/-- The effective property byte cap computed at the top of `build.Run`:
`if propertyCap <= 0 { propertyCap = 2 * 1024 }`. -/
def effectivePropertyCap (opts : Options) : ℤ :=
  if opts.PropertyByteCap ≤ 0 then 2 * 1024 else opts.PropertyByteCap

/-- `build.processConfig` (the report pointer is replaced by the
explicit metrics state threaded through `releaseResult`). -/
structure ProcessConfig where
  Options : Options
  Threads : ℤ
  PropertyCap : ℤ
  Quantizer : Quantizer
  Filter : Option PropFilter
deriving DecidableEq, Repr

/-- `build.featureResult`: the per-row processing result carried from
the workers to the reassembly loop (`Err` is `Option String`). -/
structure FeatureResult where
  RowNumber : ℕ
  CellString : String
  Resolution : ℤ
  Feature : Feature
  PropertyBytes : ℕ
  PropertyCount : ℕ
  QuantResult : QuantResult
  Dropped : Bool
  DropReason : String
  DropDetail : String
  Err : Option String
deriving DecidableEq, Repr

/-- The initial `featureResult` literal at the top of `buildFeature`
(remaining fields take their Go zero values). -/
def initResult (row : Row) : FeatureResult :=
  { RowNumber := row.RowNumber, CellString := row.CellString
    Resolution := row.Resolution, Feature := emptyFeature
    PropertyBytes := 0, PropertyCount := 0, QuantResult := emptyQuantResult
    Dropped := false, DropReason := "", DropDetail := "", Err := none }

/-- Go map assignment `m[key] = value` on the association-list model:
overwrite the key if present, append it otherwise. -/
def setKey (props : List (String × PropValue)) (key : String) (value : PropValue) :
    List (String × PropValue) :=
  (props.filter fun kv => kv.1 ≠ key) ++ [(key, value)]

/-- `build.buildFeature`: the per-row worker computation. In order:
invalid-cell drop, resolution-filter drops, property filtering,
injection of the system fields (`h3`, `resolution`), quantization of
the resulting map, JSON serialization for the byte/count measures, the
property-cap drop, then geometry construction. -/
def buildFeature (lib : LibEnv) (cfg : ProcessConfig) (row : Row) : FeatureResult :=
  let result := initResult row
  match row.Err with
  | some e =>
    { result with
      Resolution := -1, Dropped := true
      DropReason := "invalid_h3", DropDetail := e }
  | none =>
    if 0 ≤ cfg.Options.MinResolution ∧ row.Resolution < cfg.Options.MinResolution then
      { result with Dropped := true, DropReason := "resolution" }
    else if 0 ≤ cfg.Options.MaxResolution ∧ row.Resolution > cfg.Options.MaxResolution then
      { result with Dropped := true, DropReason := "resolution" }
    else
      let propsMap := row.Properties
      let filtered :=
        match cfg.Filter with
        | some f => f.Apply lib.globMatch propsMap
        | none => propsMap
      let filtered := setKey filtered "h3" (.str row.CellString)
      let filtered := setKey filtered "resolution" (.int row.Resolution)
      let applied := cfg.Quantizer.Apply filtered
      let filtered := applied.1
      let quantResult := applied.2
      match lib.marshal filtered with
      | none => { result with Err := some "marshal properties: serialization error" }
      | some propJSON =>
        let result :=
          { result with
            PropertyBytes := propJSON.length
            PropertyCount := filtered.length, QuantResult := quantResult }
        if 0 < cfg.PropertyCap ∧ (propJSON.length : ℤ) > cfg.PropertyCap then
          { result with Dropped := true, DropReason := "property_cap" }
        else
          match polygonFromCell lib row.Cell with
          | .error e =>
            { result with Err := some ("polygonize " ++ row.CellString ++ ": " ++ e) }
          | .ok polygon =>
            { result with Feature :=
              { ID := row.CellString
                Geometry := polygon
                Properties := filtered
                BBox := some (ringBound polygon) } }

/-- `build.deriveZooms`, with `report.Metrics.MaxResolutionSeen`
passed explicitly: default the minimum zoom to 0, derive an unset
maximum zoom from the maximum resolution seen, raise the maximum to the
minimum when smaller, and finally cap the maximum at 15. -/
def deriveZooms (opts : Options) (maxResolutionSeen : ℤ) : ℤ × ℤ :=
  let minZoom := if opts.MinZoom < 0 then 0 else opts.MinZoom
  let maxZoom0 :=
    if opts.MaxZoom < 0 then
      if maxResolutionSeen ≤ 0 then 12
      else
        let computed := maxResolutionSeen + 2
        let computed := if computed < 12 then 12 else computed
        if computed > 15 then 15 else computed
    else opts.MaxZoom
  let maxZoom1 := if maxZoom0 < minZoom then minZoom else maxZoom0
  let maxZoom2 := if maxZoom1 > 15 then 15 else maxZoom1
  (minZoom, maxZoom2)

/-- `report.PropertyWarning`. -/
structure PropertyWarning where
  RowNumber : ℕ
  H3 : String
  PropertyCount : ℕ
  PropertyBytes : ℕ
  Message : String
deriving DecidableEq, Repr

/-- The metrics fields of `report.Metrics` that the release loop of
`processRows` updates, with the resolution histogram as a total
function (Go's `map[int]int64` read at absent keys yields 0). -/
structure RunMetrics where
  TotalRows : ℕ
  EmittedFeatures : ℕ
  DroppedResolution : ℕ
  DroppedPropertyCap : ℕ
  DroppedInvalidH3 : ℕ
  DroppedOther : ℕ
  ResolutionHistogram : ℤ → ℕ
  QuantizeApplied : Bool
  QuantizeChanges : ℕ
  QuantizeTotalError : ℚ
  PropertyWarnings : List PropertyWarning

/-- Go zero value of the tracked metrics. -/
def initMetrics : RunMetrics :=
  { TotalRows := 0, EmittedFeatures := 0, DroppedResolution := 0
    DroppedPropertyCap := 0, DroppedInvalidH3 := 0, DroppedOther := 0
    ResolutionHistogram := fun _ => 0
    QuantizeApplied := false, QuantizeChanges := 0, QuantizeTotalError := 0
    PropertyWarnings := [] }

/-- The local state of the reassembly loop in `processRows` that the
release of one in-order result reads and writes: the metrics, the
min/max resolution tracker, the property-warning counter, the bounded
invalid-cell samples, and the NDJSON output (`writer.WriteFeature`
modelled as appending to `output`). -/
structure ReleaseState where
  metrics : RunMetrics
  minResSeen : ℤ
  maxResSeen : ℤ
  resInitialised : Bool
  propertyWarnings : ℕ
  invalidSamples : List String
  output : List Feature

/-- Initial release state (`expected`/`pending` live in `ReasmState`). -/
def initReleaseState : ReleaseState :=
  { metrics := initMetrics, minResSeen := 0, maxResSeen := 0
    resInitialised := false, propertyWarnings := 0
    invalidSamples := [], output := [] }

/-- Constants of the release loop in `processRows`. -/
def propertyWarningLimit : ℕ := 20

/-- Soft threshold on the emitted property count. -/
def propertyWarnCountThreshold : ℕ := 15

/-- Soft threshold on the emitted property byte size. -/
def propertyWarnBytesThreshold : ℕ := 20 * 1024

/-- Cap on collected invalid-cell diagnostic samples. -/
def invalidSampleLimit : ℕ := 10

/-- The body of the release loop of `processRows` for one result
released in order: count the row, update the resolution histogram and
the min/max tracker whenever the resolution is non-negative (before
any drop handling), then either account the drop by reason (collecting
capped diagnostics) or write the feature and update the quantization
and soft-warning state. -/
def releaseResult (cfg : ProcessConfig) (st : ReleaseState) (fr : FeatureResult) :
    ReleaseState :=
  let m0 := st.metrics
  let m1 := { m0 with TotalRows := m0.TotalRows + 1 }
  let st :=
    if 0 ≤ fr.Resolution then
      let m2 := { m1 with ResolutionHistogram :=
        fun r => if r = fr.Resolution then m1.ResolutionHistogram r + 1
                 else m1.ResolutionHistogram r }
      if ¬ st.resInitialised then
        { st with
          metrics := m2, minResSeen := fr.Resolution
          maxResSeen := fr.Resolution, resInitialised := true }
      else
        { st with
          metrics := m2
          minResSeen := if fr.Resolution < st.minResSeen then fr.Resolution else st.minResSeen
          maxResSeen := if fr.Resolution > st.maxResSeen then fr.Resolution else st.maxResSeen }
    else { st with metrics := m1 }
  if fr.Dropped then
    if fr.DropReason = "resolution" then
      { st with metrics :=
        { st.metrics with DroppedResolution := st.metrics.DroppedResolution + 1 } }
    else if fr.DropReason = "property_cap" then
      let st :=
        { st with metrics :=
          { st.metrics with DroppedPropertyCap := st.metrics.DroppedPropertyCap + 1 } }
      let st :=
        if st.propertyWarnings < propertyWarningLimit then
          { st with metrics :=
            { st.metrics with PropertyWarnings := st.metrics.PropertyWarnings ++
              [{ RowNumber := fr.RowNumber, H3 := fr.CellString
                 PropertyCount := fr.PropertyCount, PropertyBytes := fr.PropertyBytes
                 Message := "dropped: property payload " ++ toString fr.PropertyBytes ++
                   " bytes exceeds cap " ++ toString cfg.PropertyCap ++ " bytes" }] } }
        else st
      { st with propertyWarnings := st.propertyWarnings + 1 }
    else if fr.DropReason = "invalid_h3" then
      let st :=
        { st with metrics :=
          { st.metrics with DroppedInvalidH3 := st.metrics.DroppedInvalidH3 + 1 } }
      if st.invalidSamples.length < invalidSampleLimit then
        let detail := if fr.DropDetail = "" then "invalid H3 cell" else fr.DropDetail
        { st with invalidSamples := st.invalidSamples ++
          ["row " ++ toString fr.RowNumber ++ " (" ++ fr.CellString ++ "): " ++ detail] }
      else st
    else
      { st with metrics :=
        { st.metrics with DroppedOther := st.metrics.DroppedOther + 1 } }
  else
    let st := { st with output := st.output ++ [fr.Feature] }
    let st :=
      { st with metrics :=
        { st.metrics with EmittedFeatures := st.metrics.EmittedFeatures + 1 } }
    let st :=
      if 0 < fr.QuantResult.Changes then
        { st with metrics :=
          { st.metrics with
            QuantizeApplied := true
            QuantizeChanges := st.metrics.QuantizeChanges + fr.QuantResult.Changes
            QuantizeTotalError := st.metrics.QuantizeTotalError + fr.QuantResult.TotalAbsError } }
      else st
    if fr.PropertyCount > propertyWarnCountThreshold ∨
        fr.PropertyBytes > propertyWarnBytesThreshold then
      let st :=
        if st.propertyWarnings < propertyWarningLimit then
          { st with metrics :=
            { st.metrics with PropertyWarnings := st.metrics.PropertyWarnings ++
              [{ RowNumber := fr.RowNumber, H3 := fr.CellString
                 PropertyCount := fr.PropertyCount, PropertyBytes := fr.PropertyBytes
                 Message := "large property payload (" ++ toString fr.PropertyCount ++
                   " props, " ++ toString fr.PropertyBytes ++ " bytes)" }] } }
        else st
      { st with propertyWarnings := st.propertyWarnings + 1 }
    else st

/-- Lookup in the pending map keyed by sequence number
(`pending[expected]`; newest insertion shadows, matching map
overwrite). -/
def klookup (k : ℕ) : List (ℕ × FeatureResult) → Option FeatureResult
  | [] => none
  | (k2, v) :: rest => if k2 = k then some v else klookup k rest

/-- Deletion from the pending map (`delete(pending, expected)`). -/
def kerase (k : ℕ) : List (ℕ × FeatureResult) → List (ℕ × FeatureResult)
  | [] => []
  | (k2, v) :: rest => if k2 = k then rest else (k2, v) :: kerase k rest

/-- The state owned by the reassembly task: the next sequence number to
release, the pending map of out-of-order results, and the results
released so far, in release order. -/
structure ReasmState where
  expected : ℕ
  pending : List (ℕ × FeatureResult)
  released : List FeatureResult

/-- The inner `for` loop of `processRows`: while the expected sequence
number is pending, delete it, advance, and release it. The loop removes
one pending entry per iteration, so running it with fuel
`pending.length` is exact. -/
def drainLoop : ℕ → ReasmState → ReasmState
  | 0, st => st
  | fuel + 1, st =>
    match klookup st.expected st.pending with
    | none => st
    | some fr =>
      drainLoop fuel
        { expected := st.expected + 1
          pending := kerase st.expected st.pending
          released := st.released ++ [fr] }

/-- Processing of one arriving result in `processRows`:
`pending[res.RowNumber] = res` followed by the drain loop. -/
def reasmStep (st : ReasmState) (res : FeatureResult) : ReasmState :=
  let inserted : ReasmState :=
    { expected := st.expected
      pending := (res.RowNumber, res) :: st.pending
      released := st.released }
  drainLoop inserted.pending.length inserted

/-- Initial reassembly state: `expected := 1`, nothing pending. -/
def initReasmState : ReasmState :=
  { expected := 1, pending := [], released := [] }

/-- The reassembly loop of `processRows` over the sequence of results
taken from the results channel, returning the results in release
order. -/
def reassemble (arrivals : List FeatureResult) : List FeatureResult :=
  (arrivals.foldl reasmStep initReasmState).released

/-- Statement helper: the numeric value kinds (those the quantizer's
type switch rounds). -/
def PropValue.isNumericVal : PropValue → Bool
  | .int _ => true
  | .float _ => true
  | _ => false

/-- Statement helper: the rational content of a numeric value. -/
def PropValue.ratValue : PropValue → ℚ
  | .int n => (n : ℚ)
  | .float x => x
  | _ => 0

/-- A concrete instantiation of the external collaborators, used to
evaluate the embedded pipeline on closed inputs: every cell is valid
with resolution 8, boundaries form a fixed open triangle, globs never
match, serialization always returns a one-byte payload. -/
def trivLib : LibEnv :=
  { isValid := fun _ => true
    resolution := fun _ => 8
    indexToString := fun _ => "cellstr"
    boundary := fun _ => .ok [(0, 0), (1, 0), (0, 1)]
    globMatch := fun _ _ => false
    marshal := fun _ => some "m"
    formatFloat := fun _ => "0.0" }

/-- Like `trivLib`, but serialization always reports 2049 bytes. -/
def bigLib : LibEnv :=
  { trivLib with marshal := fun _ => some (String.mk (List.replicate 2049 'a')) }

theorem goRound_abs_sub (x : ℚ) : |(goRound x : ℚ) - x| ≤ 1 / 2 := by
  unfold goRound
  split
  · rw [abs_sub_comm]
    exact abs_sub_round x
  · have h := abs_sub_round (-x)
    rw [abs_sub_comm] at h
    push_cast
    calc |-(round (-x) : ℚ) - x| = |(round (-x) : ℚ) - -x| := by
          rw [show -(round (-x) : ℚ) - x = -((round (-x) : ℚ) - -x) by ring, abs_neg]
    _ ≤ 1 / 2 := h

theorem goRound_intCast (m : ℤ) : goRound (m : ℚ) = m := by
  unfold goRound
  split
  · exact round_intCast m
  · rw [show (-(m : ℚ)) = ((-m : ℤ) : ℚ) by push_cast; ring, round_intCast]
    ring

theorem goTrunc_intCast (m : ℤ) : goTrunc (m : ℚ) = m := by
  unfold goTrunc
  split
  · exact Int.floor_intCast m
  · rw [show (-(m : ℚ)) = ((-m : ℤ) : ℚ) by push_cast; ring, Int.floor_intCast]
    ring

theorem goTrunc_abs_sub (x : ℚ) : |(goTrunc x : ℚ) - x| < 1 := by
  unfold goTrunc
  split
  · rw [abs_sub_comm, abs_of_nonneg (by linarith [Int.floor_le x])]
    linarith [Int.lt_floor_add_one x]
  · push_cast
    have h1 := Int.floor_le (-x)
    have h2 := Int.lt_floor_add_one (-x)
    rw [abs_of_nonneg (by linarith)]
    linarith

theorem quantizeFloat64_abs_sub (v s : ℚ) (hs : 0 < s) :
    |(quantizeFloat64 v s).1 - v| ≤ s / 2 := by
  unfold quantizeFloat64
  rw [if_neg (not_le.mpr hs)]
  split
  · simp only
    rw [sub_self, abs_zero]
    positivity
  · have hne : s ≠ 0 := ne_of_gt hs
    have hkey : (goRound (v / s) : ℚ) * s - v = ((goRound (v / s) : ℚ) - v / s) * s := by
      field_simp
    calc |(goRound (v / s) : ℚ) * s - v|
        = |(goRound (v / s) : ℚ) - v / s| * |s| := by rw [hkey, abs_mul]
    _ ≤ (1 / 2) * s := by
        rw [abs_of_pos hs]
        exact mul_le_mul_of_nonneg_right (goRound_abs_sub (v / s)) (le_of_lt hs)
    _ = s / 2 := by ring

theorem quantizeInt64_abs_sub_intStep (v m : ℤ) (hm : 0 < m) :
    |((quantizeInt64 v (m : ℚ)).1 : ℚ) - (v : ℚ)| ≤ (m : ℚ) / 2 := by
  have hs : (0 : ℚ) < (m : ℚ) := by exact_mod_cast hm
  unfold quantizeInt64
  rw [if_neg (not_le.mpr hs)]
  have hcast : (goRound ((v : ℚ) / (m : ℚ)) : ℚ) * (m : ℚ) =
      ((goRound ((v : ℚ) / (m : ℚ)) * m : ℤ) : ℚ) := by push_cast; ring
  split
  · simp only
    rw [sub_self, abs_zero]
    positivity
  · split
    · simp only
      rw [sub_self, abs_zero]
      positivity
    · rw [hcast, goTrunc_intCast]
      have hne : (m : ℚ) ≠ 0 := ne_of_gt hs
      have hkey : ((goRound ((v : ℚ) / (m : ℚ)) * m : ℤ) : ℚ) - (v : ℚ) =
          ((goRound ((v : ℚ) / (m : ℚ)) : ℚ) - (v : ℚ) / (m : ℚ)) * (m : ℚ) := by
        push_cast
        field_simp
      calc |((goRound ((v : ℚ) / (m : ℚ)) * m : ℤ) : ℚ) - (v : ℚ)|
          = |(goRound ((v : ℚ) / (m : ℚ)) : ℚ) - (v : ℚ) / (m : ℚ)| * |(m : ℚ)| := by
            rw [hkey, abs_mul]
      _ ≤ (1 / 2) * (m : ℚ) := by
          rw [abs_of_pos hs]
          exact mul_le_mul_of_nonneg_right (goRound_abs_sub _) (le_of_lt hs)
      _ = (m : ℚ) / 2 := by ring

theorem quantizeInt64_abs_sub_lt (v : ℤ) (s : ℚ) (hs : 0 < s) :
    |((quantizeInt64 v s).1 : ℚ) - (v : ℚ)| < s / 2 + 1 := by
  unfold quantizeInt64
  rw [if_neg (not_le.mpr hs)]
  have hy : |(goRound ((v : ℚ) / s) : ℚ) * s - (v : ℚ)| ≤ s / 2 := by
    have hne : s ≠ 0 := ne_of_gt hs
    have hkey : (goRound ((v : ℚ) / s) : ℚ) * s - (v : ℚ) =
        ((goRound ((v : ℚ) / s) : ℚ) - (v : ℚ) / s) * s := by field_simp
    calc |(goRound ((v : ℚ) / s) : ℚ) * s - (v : ℚ)|
        = |(goRound ((v : ℚ) / s) : ℚ) - (v : ℚ) / s| * |s| := by rw [hkey, abs_mul]
    _ ≤ (1 / 2) * s := by
        rw [abs_of_pos hs]
        exact mul_le_mul_of_nonneg_right (goRound_abs_sub _) (le_of_lt hs)
    _ = s / 2 := by ring
  split
  · simp only
    rw [sub_self, abs_zero]
    positivity
  · split
    · simp only
      rw [sub_self, abs_zero]
      positivity
    · have ht := goTrunc_abs_sub ((goRound ((v : ℚ) / s) : ℚ) * s)
      have htri := abs_sub_le
        ((goTrunc ((goRound ((v : ℚ) / s) : ℚ) * s) : ℚ))
        ((goRound ((v : ℚ) / s) : ℚ) * s) ((v : ℚ))
      linarith

/-- C5 corrected claim: for a positive effective step `s`, the
floating-point path always satisfies `|v2 - v| ≤ s/2`; the integer path
satisfies that bound when `s` is a whole number, and in general only
`|v2 - v| < s/2 + 1`, because the rounded product is truncated toward
zero when converted back to `int64`. -/
theorem quantize_step_bound (v : ℚ) (n : ℤ) (s : ℚ) (hs : 0 < s) :
    |(quantizeFloat64 v s).1 - v| ≤ s / 2 ∧
    (∀ m : ℤ, s = (m : ℚ) → |((quantizeInt64 n s).1 : ℚ) - (n : ℚ)| ≤ s / 2) ∧
    |((quantizeInt64 n s).1 : ℚ) - (n : ℚ)| < s / 2 + 1 := by
  refine ⟨quantizeFloat64_abs_sub v s hs, ?_, quantizeInt64_abs_sub_lt n s hs⟩
  rintro m rfl
  exact quantizeInt64_abs_sub_intStep n m (by exact_mod_cast hs)

/-- C5 counterexample: `quantizeInt64` with value 2 and step 3/2
(float step `1.5` for an integer property) produces 1, at absolute
error 1, which exceeds `s/2 = 3/4` — the claimed bound fails on the
integer path. -/
theorem quantizeInt64_bound_cex :
    quantizeInt64 2 (3 / 2) = (1, 1, true) ∧
    ¬ |((quantizeInt64 2 (3 / 2)).1 : ℚ) - (2 : ℚ)| ≤ (3 / 2) / 2 := by
  constructor
  · norm_num [quantizeInt64, goTrunc, goRound, round_eq, Int.floor_eq_iff]
  · norm_num [quantizeInt64, goTrunc, goRound, round_eq, Int.floor_eq_iff]

/-- C5 witness. -/
theorem quantize_step_bound_witness :
    (0 : ℚ) < 2 ∧
    (|(quantizeFloat64 (1 / 3) 2).1 - 1 / 3| ≤ 2 / 2 ∧
     (∀ m : ℤ, (2 : ℚ) = (m : ℚ) →
       |((quantizeInt64 7 2).1 : ℚ) - (7 : ℚ)| ≤ 2 / 2) ∧
     |((quantizeInt64 7 2).1 : ℚ) - (7 : ℚ)| < 2 / 2 + 1) :=
  ⟨by norm_num, quantize_step_bound (1 / 3) 7 2 (by norm_num)⟩

theorem applyValue_exact_multiple (q : Quantizer) (key : String) (v : PropValue)
    (hnum : v.isNumericVal = true)
    (hstep : 0 < q.lookupStep key v)
    (hmult : ∃ m : ℤ, v.ratValue = (m : ℚ) * q.lookupStep key v) :
    q.applyValue key v = (v, 0, false) := by
  obtain ⟨m, hm⟩ := hmult
  cases v with
  | float x =>
    simp only [PropValue.ratValue] at hm
    set s := q.lookupStep key (.float x) with hsdef
    have hne : s ≠ 0 := ne_of_gt hstep
    have hdiv : x / s = (m : ℚ) := by
      rw [hm]
      field_simp
    have hq : (goRound (x / s) : ℚ) * s = x := by
      rw [hdiv, goRound_intCast, ← hm]
    have hfz : quantizeFloat64 x s = (x, 0, false) := by
      unfold quantizeFloat64
      rw [if_neg (not_le.mpr hstep), if_pos (by rw [hq, sub_self, abs_zero])]
    simp only [Quantizer.applyValue, ← hsdef, if_neg (not_le.mpr hstep), hfz]
    simp
  | int n =>
    simp only [PropValue.ratValue] at hm
    set s := q.lookupStep key (.int n) with hsdef
    have hne : s ≠ 0 := ne_of_gt hstep
    have hdiv : (n : ℚ) / s = (m : ℚ) := by
      rw [hm]
      field_simp
    have hq : (goRound ((n : ℚ) / s) : ℚ) * s = ((n : ℤ) : ℚ) := by
      rw [hdiv, goRound_intCast, ← hm]
    have hiz : quantizeInt64 n s = (n, 0, false) := by
      unfold quantizeInt64
      rw [if_neg (not_le.mpr hstep), if_pos (by rw [hq, goTrunc_intCast])]
    simp only [Quantizer.applyValue, ← hsdef, if_neg (not_le.mpr hstep), hiz]
    simp
  | null => simp [PropValue.isNumericVal] at hnum
  | bool b => simp [PropValue.isNumericVal] at hnum
  | str s2 => simp [PropValue.isNumericVal] at hnum

/-- C7: a numeric value that is an exact multiple of its positive
effective step is left unchanged by `Quantizer.Apply` — its entry is
returned as-is, the change counter is not incremented, and nothing is
added to the total or per-field absolute-error accumulators (prepending
such an entry leaves the whole `Result` unchanged). -/
theorem quantize_fixed_point (q : Quantizer) (key : String) (v : PropValue)
    (props : List (String × PropValue))
    (hnum : v.isNumericVal = true)
    (hstep : 0 < q.lookupStep key v)
    (hmult : ∃ m : ℤ, v.ratValue = (m : ℚ) * q.lookupStep key v) :
    q.applyValue key v = (v, 0, false) ∧
    q.Apply ((key, v) :: props) =
      ((key, v) :: (q.Apply props).1, (q.Apply props).2) := by
  have h1 := applyValue_exact_multiple q key v hnum hstep hmult
  refine ⟨h1, ?_⟩
  simp [Quantizer.Apply, h1]

/-- C7 witness. -/
theorem quantize_fixed_point_witness :
    (PropValue.float (3 / 2)).isNumericVal = true ∧
    0 < Quantizer.lookupStep ⟨1 / 2, 0, []⟩ "a" (.float (3 / 2)) ∧
    (∃ m : ℤ, (PropValue.float (3 / 2)).ratValue =
      (m : ℚ) * Quantizer.lookupStep ⟨1 / 2, 0, []⟩ "a" (.float (3 / 2))) ∧
    (Quantizer.applyValue ⟨1 / 2, 0, []⟩ "a" (.float (3 / 2)) =
        (.float (3 / 2), 0, false) ∧
      Quantizer.Apply ⟨1 / 2, 0, []⟩ [("a", .float (3 / 2)), ("b", .str "x")] =
        (("a", .float (3 / 2)) ::
          (Quantizer.Apply ⟨1 / 2, 0, []⟩ [("b", .str "x")]).1,
         (Quantizer.Apply ⟨1 / 2, 0, []⟩ [("b", .str "x")]).2)) :=
  ⟨rfl,
   by norm_num [Quantizer.lookupStep, List.lookup],
   ⟨3, by norm_num [Quantizer.lookupStep, List.lookup, PropValue.ratValue]⟩,
   quantize_fixed_point ⟨1 / 2, 0, []⟩ "a" (.float (3 / 2)) [("b", .str "x")]
     rfl
     (by norm_num [Quantizer.lookupStep, List.lookup])
     ⟨3, by norm_num [Quantizer.lookupStep, List.lookup, PropValue.ratValue]⟩⟩

/-- C4 counterexample: with an explicit min zoom of 16 and an explicit
max zoom of 3, `deriveZooms` yields max zoom 15, not 16 — the raise to
min zoom is capped at 15 afterwards, so the claimed equality
`max-zoom = min-zoom` fails. -/
theorem deriveZooms_raise_cex :
    deriveZooms ⟨16, 3, -1, -1, [], [], false, 0, 0⟩ 0 = (16, 15) ∧
    (0 : ℤ) ≤ (⟨16, 3, -1, -1, [], [], false, 0, 0⟩ : Options).MaxZoom ∧
    (⟨16, 3, -1, -1, [], [], false, 0, 0⟩ : Options).MaxZoom <
      (⟨16, 3, -1, -1, [], [], false, 0, 0⟩ : Options).MinZoom ∧
    (deriveZooms ⟨16, 3, -1, -1, [], [], false, 0, 0⟩ 0).2 ≠
      (⟨16, 3, -1, -1, [], [], false, 0, 0⟩ : Options).MinZoom := by
  refine ⟨by decide, by decide, by decide, by decide⟩

/-- C4 corrected claim, as a closed form: an unset (negative) min zoom
defaults to 0; an unset max zoom is derived as 12 when no positive
resolution was seen and as clamp(maxRes+2, 12, 15) otherwise; then the
max zoom is raised to the min zoom when smaller and finally capped at
15 — so an explicit max zoom below a min zoom above 15 ends at 15, not
at the min zoom. -/
theorem deriveZooms_closed_form (opts : Options) (maxResSeen : ℤ) :
    deriveZooms opts maxResSeen =
      (if opts.MinZoom < 0 then 0 else opts.MinZoom,
       min 15 (max (if opts.MinZoom < 0 then 0 else opts.MinZoom)
         (if opts.MaxZoom < 0 then
            (if maxResSeen ≤ 0 then 12 else min 15 (max 12 (maxResSeen + 2)))
          else opts.MaxZoom))) := by
  refine Prod.ext ?_ ?_
  · simp only [deriveZooms]
  · simp only [deriveZooms]
    split_ifs <;> omega

theorem lookup_filterMap_keyed (g : String → Option (String × PropValue))
    (hg : ∀ k p, g k = some p → p.1 = k) :
    ∀ (l : List String) (key : String),
      (l.filterMap g).lookup key =
        if key ∈ l then (g key).map Prod.snd else none := by
  intro l
  induction l with
  | nil => intro key; simp
  | cons a rest ih =>
    intro key
    by_cases hak : key = a
    · subst hak
      cases hga : g key with
      | none => simp [List.filterMap_cons, hga, ih]
      | some p =>
        have hpa : p.1 = key := hg key p hga
        simp [List.filterMap_cons, hga, List.lookup, hpa]
    · cases hga : g a with
      | none => simp [List.filterMap_cons, hga, ih, hak]
      | some p =>
        have hpa : p.1 = a := hg a p hga
        have hne : (key == p.1) = false := by
          rw [hpa]
          exact beq_eq_false_iff_ne.mpr hak
        simp [List.filterMap_cons, hga, List.lookup, hne, ih, hak]

/-- C6: with a non-empty allow-list, `Filter.Apply` retains exactly the
keys that are allow-listed, present in the input, and not matched by
any deny glob — with their input values — independently of the
configured default policy (`keepAllByDefault`). -/
theorem filter_allowlist_semantics (gm : String → String → Bool) (f : PropFilter)
    (props : List (String × PropValue)) (key : String) (b : Bool)
    (hne : f.includes ≠ []) :
    (PropFilter.Apply gm { f with keepAllByDefault := b } props).lookup key =
      if key ∈ f.includes ∧ ∀ pat ∈ f.dropPatterns, gm pat key = false
      then props.lookup key else none := by
  have happly : PropFilter.Apply gm { f with keepAllByDefault := b } props =
      f.includes.filterMap fun k =>
        match props.lookup k with
        | some v => if PropFilter.shouldKeep gm { f with keepAllByDefault := b } k
                    then some (k, v) else none
        | none => none := by
    unfold PropFilter.Apply
    rw [if_pos hne]
  rw [happly, lookup_filterMap_keyed _ ?hg f.includes key]
  case hg =>
    intro k p hp
    cases hpl : props.lookup k with
    | none => simp [hpl] at hp
    | some v =>
      simp only [hpl] at hp
      split at hp
      · cases hp
        rfl
      · exact absurd hp (by simp)
  by_cases hmem : key ∈ f.includes
  · rw [if_pos hmem]
    cases hpl : props.lookup key with
    | none => simp [hpl, ite_self]
    | some v =>
      by_cases hd : ∀ pat ∈ f.dropPatterns, gm pat key = false
      · have hany : (f.dropPatterns.any fun pat => gm pat key) = false := by
          simp only [List.any_eq_false]
          intro pat hpat
          simp [hd pat hpat]
        have hkeep : PropFilter.shouldKeep gm { f with keepAllByDefault := b } key = true := by
          unfold PropFilter.shouldKeep
          rw [if_neg (by simp [hany])]
          rw [if_neg (by simpa [List.isEmpty_iff] using hne)]
          simpa using hmem
        simp only [hpl, hkeep, if_true]
        rw [if_pos ⟨hmem, hd⟩]
        simp
      · have hany : (f.dropPatterns.any fun pat => gm pat key) = true := by
          rw [List.any_eq_true]
          push_neg at hd
          obtain ⟨pat, hpat, hgm⟩ := hd
          exact ⟨pat, hpat, by simpa using hgm⟩
        have hkeep : PropFilter.shouldKeep gm { f with keepAllByDefault := b } key = false := by
          unfold PropFilter.shouldKeep
          rw [if_pos (by simp [hany])]
        rw [if_neg (fun hcond => hd hcond.2)]
        simp [hpl, hkeep]
  · rw [if_neg (by simp [hmem])]
    simp [hmem]

/-- C6 witness. -/
theorem filter_allowlist_semantics_witness :
    (⟨["a", "b"], ["b*"], false⟩ : PropFilter).includes ≠ [] ∧
    (PropFilter.Apply (fun pat k => pat = k ++ "*")
        { (⟨["a", "b"], ["b*"], false⟩ : PropFilter) with keepAllByDefault := true }
        [("a", .int 1), ("b", .int 2)]).lookup "a" =
      if "a" ∈ (⟨["a", "b"], ["b*"], false⟩ : PropFilter).includes ∧
         ∀ pat ∈ (⟨["a", "b"], ["b*"], false⟩ : PropFilter).dropPatterns,
           (fun pat k => pat = k ++ "*") pat "a" = false
      then [("a", PropValue.int 1), ("b", PropValue.int 2)].lookup "a" else none :=
  ⟨by decide,
   filter_allowlist_semantics (fun pat k => decide (pat = k ++ "*"))
     ⟨["a", "b"], ["b*"], false⟩ [("a", .int 1), ("b", .int 2)] "a" true (by decide)⟩

theorem applyValue_str (q : Quantizer) (key s : String) :
    q.applyValue key (.str s) = (.str s, 0, false) := by
  simp [Quantizer.applyValue, ite_self]

theorem lookup_setKey_self (l : List (String × PropValue)) (k : String) (v : PropValue) :
    (setKey l k v).lookup k = some v := by
  induction l with
  | nil => simp [setKey, List.lookup]
  | cons a rest ih =>
    by_cases hak : a.1 = k
    · simpa [setKey, List.filter_cons, hak] using ih
    · simp only [setKey, List.filter_cons] at ih ⊢
      rw [if_pos (by simpa using hak)]
      have : (k == a.1) = false := beq_eq_false_iff_ne.mpr (Ne.symm hak)
      simpa [List.lookup, this] using ih

theorem lookup_setKey_ne (l : List (String × PropValue)) (k : String) (v : PropValue)
    (k2 : String) (hne : k2 ≠ k) :
    (setKey l k v).lookup k2 = l.lookup k2 := by
  have hb : (k2 == k) = false := beq_eq_false_iff_ne.mpr hne
  induction l with
  | nil => simp [setKey, List.lookup, hb]
  | cons a rest ih =>
    by_cases hak : a.1 = k
    · have hb2 : (k2 == a.1) = false := by rw [hak]; exact hb
      simp only [setKey, List.filter_cons] at ih ⊢
      rw [if_neg (by simpa using hak)]
      simpa [List.lookup, hb2] using ih
    · simp only [setKey, List.filter_cons] at ih ⊢
      rw [if_pos (by simpa using hak)]
      by_cases hk2a : k2 = a.1
      · simp [List.lookup, hk2a]
      · have hb3 : (k2 == a.1) = false := beq_eq_false_iff_ne.mpr hk2a
        simpa [List.lookup, hb3] using ih

theorem lookup_quantApply (q : Quantizer) (l : List (String × PropValue)) (k : String) :
    (q.Apply l).1.lookup k = (l.lookup k).map fun v => (q.applyValue k v).1 := by
  induction l with
  | nil => simp [Quantizer.Apply]
  | cons a rest ih =>
    simp only [Quantizer.Apply, List.map_cons] at ih ⊢
    by_cases hak : k = a.1
    · subst hak
      simp [List.lookup]
    · have hb : (k == a.1) = false := beq_eq_false_iff_ne.mpr hak
      simpa [List.lookup, hb] using ih

/-- C3 counterexample: with quantize spec `int=10`, a row at resolution
8 (no user properties, empty allow-list) is emitted with property
`resolution = 10`: the injected resolution field IS rounded by the
configured integer step, because `buildFeature` injects the system
fields before calling `Quantizer.Apply`, not after. -/
theorem inject_then_quantize_cex :
    (buildFeature trivLib
        ⟨⟨-1, -1, -1, -1, [], [], false, 1, 0⟩, 1, 2048, ⟨0, 10, []⟩,
          some (NewFilter [] [] false)⟩
        ⟨1, 5, "cs", 8, [], none⟩).Feature.Properties.lookup "resolution" =
      some (.int 10) ∧
    (⟨1, 5, "cs", 8, [], none⟩ : Row).Resolution = 8 ∧
    PropValue.int 10 ≠ PropValue.int 8 := by
  have hq : quantizeInt64 8 10 = (10, 2, true) := by
    norm_num [quantizeInt64, goRound, goTrunc, round_eq]
  refine ⟨?_, rfl, by decide⟩
  norm_num [buildFeature, initResult, NewFilter, PropFilter.Apply, setKey,
    Quantizer.Apply, Quantizer.applyValue, Quantizer.lookupStep, hq,
    trivLib, polygonFromCell, ringClosed, ringBound, emptyFeature,
    List.lookup, List.filterMap, List.filter, List.foldl]
  decide

/-- C3 corrected claim: for every row that reaches property
normalization, the properties are filtered and then the system fields
are injected (`h3`, then `resolution`), exempt from the
allow-list/deny-list; quantization runs *after* injection on the whole
map. The injected `h3` string is never modified by quantization, but
the injected `resolution` value is passed through the quantizer like
any integer property (and is rounded when an integer step or a
`resolution` field override applies). -/
theorem props_filter_inject_quantize (lib : LibEnv) (cfg : ProcessConfig) (row : Row)
    (injected : List (String × PropValue))
    (hinj : injected = setKey (setKey
      (match cfg.Filter with
       | some f => f.Apply lib.globMatch row.Properties
       | none => row.Properties) "h3" (.str row.CellString))
      "resolution" (.int row.Resolution))
    (h0 : row.Err = none)
    (h1 : ¬(0 ≤ cfg.Options.MinResolution ∧ row.Resolution < cfg.Options.MinResolution))
    (h2 : ¬(0 ≤ cfg.Options.MaxResolution ∧ row.Resolution > cfg.Options.MaxResolution))
    (hm : ∀ l, (lib.marshal l).isSome = true) :
    (buildFeature lib cfg row).QuantResult = (cfg.Quantizer.Apply injected).2 ∧
    ((buildFeature lib cfg row).Dropped = false →
      (buildFeature lib cfg row).Err = none →
      (buildFeature lib cfg row).Feature.Properties = (cfg.Quantizer.Apply injected).1) ∧
    (cfg.Quantizer.Apply injected).1.lookup "h3" = some (.str row.CellString) ∧
    (cfg.Quantizer.Apply injected).1.lookup "resolution" =
      some ((cfg.Quantizer.applyValue "resolution" (.int row.Resolution)).1) := by
  have hc3 : (cfg.Quantizer.Apply injected).1.lookup "h3" =
      some (.str row.CellString) := by
    rw [lookup_quantApply, hinj, lookup_setKey_ne _ _ _ _ (by decide),
      lookup_setKey_self]
    simp [applyValue_str]
  have hc4 : (cfg.Quantizer.Apply injected).1.lookup "resolution" =
      some ((cfg.Quantizer.applyValue "resolution" (.int row.Resolution)).1) := by
    rw [lookup_quantApply, hinj, lookup_setKey_self]
    simp
  subst hinj
  have hboth :
      (buildFeature lib cfg row).QuantResult =
        (cfg.Quantizer.Apply (setKey (setKey
          (match cfg.Filter with
           | some f => f.Apply lib.globMatch row.Properties
           | none => row.Properties) "h3" (.str row.CellString))
          "resolution" (.int row.Resolution))).2 ∧
      ((buildFeature lib cfg row).Dropped = false →
        (buildFeature lib cfg row).Err = none →
        (buildFeature lib cfg row).Feature.Properties =
          (cfg.Quantizer.Apply (setKey (setKey
            (match cfg.Filter with
             | some f => f.Apply lib.globMatch row.Properties
             | none => row.Properties) "h3" (.str row.CellString))
            "resolution" (.int row.Resolution))).1) := by
    have hms := hm (cfg.Quantizer.Apply (setKey (setKey
      (match cfg.Filter with
       | some f => f.Apply lib.globMatch row.Properties
       | none => row.Properties) "h3" (.str row.CellString))
      "resolution" (.int row.Resolution))).1
    simp only [buildFeature, h0]
    rw [if_neg h1, if_neg h2]
    cases hmsc : lib.marshal (cfg.Quantizer.Apply (setKey (setKey
        (match cfg.Filter with
         | some f => f.Apply lib.globMatch row.Properties
         | none => row.Properties) "h3" (.str row.CellString))
        "resolution" (.int row.Resolution))).1 with
    | none => rw [hmsc] at hms; simp at hms
    | some pj =>
      dsimp only
      by_cases hcap : 0 < cfg.PropertyCap ∧ (pj.length : ℤ) > cfg.PropertyCap
      · rw [if_pos hcap]
        refine ⟨rfl, ?_⟩
        intro hdrop
        simp at hdrop
      · rw [if_neg hcap]
        cases hpoly : polygonFromCell lib row.Cell with
        | error e =>
          refine ⟨rfl, ?_⟩
          intro _ herr
          simp at herr
        | ok poly => exact ⟨rfl, fun _ _ => rfl⟩
  exact ⟨hboth.1, hboth.2, hc3, hc4⟩

/-- C3 witness. -/
theorem props_filter_inject_quantize_witness :
    (⟨1, 5, "cs", 8, [], none⟩ : Row).Err = none ∧
    ((buildFeature trivLib
        ⟨⟨-1, -1, -1, -1, [], [], false, 1, 0⟩, 1, 2048, ⟨0, 10, []⟩,
          some (NewFilter [] [] false)⟩
        ⟨1, 5, "cs", 8, [], none⟩).QuantResult =
      ((⟨0, 10, []⟩ : Quantizer).Apply (setKey (setKey
        (match (some (NewFilter [] [] false) : Option PropFilter) with
         | some f => f.Apply trivLib.globMatch ([] : List (String × PropValue))
         | none => ([] : List (String × PropValue))) "h3" (.str "cs"))
        "resolution" (.int 8))).2) := by
  refine ⟨rfl, (props_filter_inject_quantize trivLib
    ⟨⟨-1, -1, -1, -1, [], [], false, 1, 0⟩, 1, 2048, ⟨0, 10, []⟩,
      some (NewFilter [] [] false)⟩
    ⟨1, 5, "cs", 8, [], none⟩ _ rfl rfl (by decide) (by decide)
    (fun l => rfl)).1⟩

/-- C1 counterexample: with min resolution 9 configured, a valid row at
resolution 8 is dropped with reason `resolution` — and its resolution
IS counted in the resolution histogram (the count at 8 goes from 0 to
1), because the release loop updates the histogram before looking at
the drop flag. -/
theorem resolution_filter_histogram_cex :
    (buildFeature trivLib
        ⟨⟨-1, -1, 9, -1, [], [], false, 1, 0⟩, 1, 2048, ⟨0, 0, []⟩, none⟩
        ⟨1, 5, "cs", 8, [], none⟩).Dropped = true ∧
    (buildFeature trivLib
        ⟨⟨-1, -1, 9, -1, [], [], false, 1, 0⟩, 1, 2048, ⟨0, 0, []⟩, none⟩
        ⟨1, 5, "cs", 8, [], none⟩).DropReason = "resolution" ∧
    (releaseResult
        ⟨⟨-1, -1, 9, -1, [], [], false, 1, 0⟩, 1, 2048, ⟨0, 0, []⟩, none⟩
        initReleaseState
        (buildFeature trivLib
          ⟨⟨-1, -1, 9, -1, [], [], false, 1, 0⟩, 1, 2048, ⟨0, 0, []⟩, none⟩
          ⟨1, 5, "cs", 8, [], none⟩)).metrics.ResolutionHistogram 8 = 1 := by
  refine ⟨by decide, by decide, by decide⟩

/-- C1 corrected claim: a valid row whose resolution falls outside the
configured [min,max] range is dropped with reason `resolution`
(reported as the resolution-filter drop counter), but its resolution IS
recorded in the resolution histogram: the release loop increments the
histogram for every released result with non-negative resolution before
inspecting the drop flag, so only invalid-cell rows (resolution −1) are
excluded from the histogram. -/
theorem resolution_filter_drop_histogram (lib : LibEnv) (cfg : ProcessConfig)
    (row : Row) (st : ReleaseState)
    (h0 : row.Err = none)
    (hres : 0 ≤ row.Resolution)
    (hout : (0 ≤ cfg.Options.MinResolution ∧ row.Resolution < cfg.Options.MinResolution) ∨
            (0 ≤ cfg.Options.MaxResolution ∧ row.Resolution > cfg.Options.MaxResolution)) :
    (buildFeature lib cfg row).Dropped = true ∧
    (buildFeature lib cfg row).DropReason = "resolution" ∧
    (releaseResult cfg st (buildFeature lib cfg row)).metrics.DroppedResolution =
      st.metrics.DroppedResolution + 1 ∧
    (releaseResult cfg st (buildFeature lib cfg row)).metrics.ResolutionHistogram
        row.Resolution =
      st.metrics.ResolutionHistogram row.Resolution + 1 := by
  have hfr : buildFeature lib cfg row =
      { initResult row with Dropped := true, DropReason := "resolution" } := by
    simp only [buildFeature, h0]
    by_cases hm1 : 0 ≤ cfg.Options.MinResolution ∧ row.Resolution < cfg.Options.MinResolution
    · rw [if_pos hm1]
    · rw [if_neg hm1, if_pos (hout.resolve_left hm1)]
  rw [hfr]
  refine ⟨rfl, rfl, ?_, ?_⟩ <;>
    simp [releaseResult, initResult, hres, apply_ite ReleaseState.metrics]

/-- C1 witness. -/
theorem resolution_filter_drop_histogram_witness :
    (⟨1, 5, "cs", 8, [], none⟩ : Row).Err = none ∧
    (0 : ℤ) ≤ (⟨1, 5, "cs", 8, [], none⟩ : Row).Resolution ∧
    ((0 ≤ (⟨⟨-1, -1, 9, -1, [], [], false, 1, 0⟩, 1, 2048, ⟨0, 0, []⟩, none⟩ :
          ProcessConfig).Options.MinResolution ∧
        (⟨1, 5, "cs", 8, [], none⟩ : Row).Resolution <
          (⟨⟨-1, -1, 9, -1, [], [], false, 1, 0⟩, 1, 2048, ⟨0, 0, []⟩, none⟩ :
            ProcessConfig).Options.MinResolution) ∨
      (0 ≤ (⟨⟨-1, -1, 9, -1, [], [], false, 1, 0⟩, 1, 2048, ⟨0, 0, []⟩, none⟩ :
          ProcessConfig).Options.MaxResolution ∧
        (⟨1, 5, "cs", 8, [], none⟩ : Row).Resolution >
          (⟨⟨-1, -1, 9, -1, [], [], false, 1, 0⟩, 1, 2048, ⟨0, 0, []⟩, none⟩ :
            ProcessConfig).Options.MaxResolution)) ∧
    ((buildFeature trivLib
        ⟨⟨-1, -1, 9, -1, [], [], false, 1, 0⟩, 1, 2048, ⟨0, 0, []⟩, none⟩
        ⟨1, 5, "cs", 8, [], none⟩).Dropped = true ∧
      (buildFeature trivLib
        ⟨⟨-1, -1, 9, -1, [], [], false, 1, 0⟩, 1, 2048, ⟨0, 0, []⟩, none⟩
        ⟨1, 5, "cs", 8, [], none⟩).DropReason = "resolution" ∧
      (releaseResult ⟨⟨-1, -1, 9, -1, [], [], false, 1, 0⟩, 1, 2048, ⟨0, 0, []⟩, none⟩
          initReleaseState
          (buildFeature trivLib
            ⟨⟨-1, -1, 9, -1, [], [], false, 1, 0⟩, 1, 2048, ⟨0, 0, []⟩, none⟩
            ⟨1, 5, "cs", 8, [], none⟩)).metrics.DroppedResolution =
        initReleaseState.metrics.DroppedResolution + 1 ∧
      (releaseResult ⟨⟨-1, -1, 9, -1, [], [], false, 1, 0⟩, 1, 2048, ⟨0, 0, []⟩, none⟩
          initReleaseState
          (buildFeature trivLib
            ⟨⟨-1, -1, 9, -1, [], [], false, 1, 0⟩, 1, 2048, ⟨0, 0, []⟩, none⟩
            ⟨1, 5, "cs", 8, [], none⟩)).metrics.ResolutionHistogram
          (⟨1, 5, "cs", 8, [], none⟩ : Row).Resolution =
        initReleaseState.metrics.ResolutionHistogram
          (⟨1, 5, "cs", 8, [], none⟩ : Row).Resolution + 1) :=
  ⟨rfl, by decide, Or.inl (by decide),
   resolution_filter_drop_histogram trivLib
     ⟨⟨-1, -1, 9, -1, [], [], false, 1, 0⟩, 1, 2048, ⟨0, 0, []⟩, none⟩
     ⟨1, 5, "cs", 8, [], none⟩ initReleaseState rfl (by decide) (Or.inl (by decide))⟩

/-- C8: a row whose `h3` column holds the string `"zzzznotacell"` is
dropped with reason `invalid_h3` (the code label behind the spec's
invalid_cell), its best-effort cell string is the literal itself, and
the literal `"zzzznotacell"` appears in the diagnostic attached to the
drop — for every library environment and configuration, since the
failure path never consults them. -/
theorem invalid_cell_literal_diagnostic (lib : LibEnv) (cfg : ProcessConfig) :
    (buildFeature lib cfg (decodeRow lib 1 [("h3", .str "zzzznotacell")])).Dropped = true ∧
    (buildFeature lib cfg (decodeRow lib 1 [("h3", .str "zzzznotacell")])).DropReason =
      "invalid_h3" ∧
    (buildFeature lib cfg (decodeRow lib 1 [("h3", .str "zzzznotacell")])).CellString =
      "zzzznotacell" ∧
    (buildFeature lib cfg (decodeRow lib 1 [("h3", .str "zzzznotacell")])).DropDetail =
      "row 1: column h3: parse H3 string \"zzzznotacell\": strconv.ParseUint: parsing \"zzzznotacell\": invalid syntax" ∧
    ∃ pre post,
      (buildFeature lib cfg (decodeRow lib 1 [("h3", .str "zzzznotacell")])).DropDetail =
        pre ++ "zzzznotacell" ++ post := by
  refine ⟨rfl, rfl, rfl, rfl,
    "row 1: column h3: parse H3 string \"",
    "\": strconv.ParseUint: parsing \"zzzznotacell\": invalid syntax", ?_⟩
  rfl

/-- C9 counterexample: the row `{h3: null}` contains the recognized
alias column `h3`, yet `extractCell` returns the `ErrNoH3Column`
(MissingCellColumn) sentinel, because a null/blank/zero alias value
falls through the scan loop without producing a cell or an error. -/
theorem extractCell_alias_missing_cex :
    isH3Column "h3" = true ∧
    "h3" ∈ ([("h3", PropValue.null)].map Prod.fst) ∧
    extractCell trivLib [("h3", PropValue.null)] = (0, "", some .noH3Column) := by
  refine ⟨rfl, by decide, rfl⟩

theorem extractCellLoop_some_zero (lib : LibEnv) (row : List (String × PropValue)) :
    ∀ keys er, (extractCellLoop lib row keys).2.2 = some er →
      (extractCellLoop lib row keys).1 = 0 := by
  intro keys
  induction keys with
  | nil => intro er _; rfl
  | cons key rest ih =>
    intro er
    simp only [extractCellLoop]
    by_cases hh : isH3Column key = true
    · rw [if_pos hh]
      rcases hp : parseCell lib ((row.lookup key).getD .null) with ⟨idx, cs, err⟩
      cases err with
      | some e => intro _; rfl
      | none =>
        dsimp only
        by_cases hz : idx ≠ 0
        · rw [if_pos hz]
          by_cases hv : ¬ lib.isValid idx = true
          · rw [if_pos hv]
            intro _; rfl
          · rw [if_neg hv]
            intro h
            exact absurd h (by simp)
        · rw [if_neg hz]
          exact ih er
    · rw [if_neg hh]
      exact ih er

theorem extractCellLoop_none_ne_zero (lib : LibEnv) (row : List (String × PropValue)) :
    ∀ keys, (extractCellLoop lib row keys).2.2 = none →
      (extractCellLoop lib row keys).1 ≠ 0 := by
  intro keys
  induction keys with
  | nil => intro h; exact absurd h (by simp [extractCellLoop])
  | cons key rest ih =>
    simp only [extractCellLoop]
    by_cases hh : isH3Column key = true
    · rw [if_pos hh]
      rcases hp : parseCell lib ((row.lookup key).getD .null) with ⟨idx, cs, err⟩
      cases err with
      | some e => intro h; exact absurd h (by simp)
      | none =>
        dsimp only
        by_cases hz : idx ≠ 0
        · rw [if_pos hz]
          by_cases hv : ¬ lib.isValid idx = true
          · rw [if_pos hv]
            intro h
            exact absurd h (by simp)
          · rw [if_neg hv]
            intro _
            exact hz
        · rw [if_neg hz]
          exact ih
    · rw [if_neg hh]
      exact ih

theorem extractCellLoop_iff (lib : LibEnv) (row : List (String × PropValue)) :
    ∀ keys, (extractCellLoop lib row keys).2.2 = some .noH3Column ↔
      ∀ k ∈ keys, isH3Column k = true →
        (parseCell lib ((row.lookup k).getD .null)).1 = 0 ∧
        (parseCell lib ((row.lookup k).getD .null)).2.2 = none := by
  intro keys
  induction keys with
  | nil => simp [extractCellLoop]
  | cons key rest ih =>
    simp only [extractCellLoop]
    by_cases hh : isH3Column key = true
    · rw [if_pos hh]
      rcases hp : parseCell lib ((row.lookup key).getD .null) with ⟨idx, cs, err⟩
      cases err with
      | some e =>
        constructor
        · intro h
          exact absurd h (by simp)
        · intro hall
          have := (hall key (by simp) hh).2
          rw [hp] at this
          exact absurd this (by simp)
      | none =>
        dsimp only
        by_cases hz : idx ≠ 0
        · rw [if_pos hz]
          by_cases hv : ¬ lib.isValid idx = true
          · rw [if_pos hv]
            constructor
            · intro h
              exact absurd h (by simp)
            · intro hall
              have := (hall key (by simp) hh).1
              rw [hp] at this
              exact absurd this hz
          · rw [if_neg hv]
            constructor
            · intro h
              exact absurd h (by simp)
            · intro hall
              have := (hall key (by simp) hh).1
              rw [hp] at this
              exact absurd this hz
        · rw [if_neg hz]
          rw [ih]
          constructor
          · intro hrest
            intro k hk hk3
            rcases List.mem_cons.mp hk with hkey | hkrest
            · subst hkey
              rw [hp]
              simp only [not_not] at hz
              exact ⟨hz, rfl⟩
            · exact hrest k hkrest hk3
          · intro hall k hk hk3
            exact hall k (List.mem_cons_of_mem _ hk) hk3
    · rw [if_neg hh]
      rw [ih]
      constructor
      · intro hrest k hk hk3
        rcases List.mem_cons.mp hk with hkey | hkrest
        · subst hkey
          exact absurd hk3 hh
        · exact hrest k hkrest hk3
      · intro hall k hk hk3
        exact hall k (List.mem_cons_of_mem _ hk) hk3

/-- C9 corrected claim: the missing-cell-column outcome (zero cell with
the `ErrNoH3Column` sentinel, or the zero cell returned for an empty
row, which `fillBuffer` also converts to `ErrNoH3Column`) occurs
exactly when every recognized alias column present in the row parses to
a zero cell with no error — i.e. not only when no alias is present, but
also when every alias column holds a null, blank, or zero value; a
parse failure or invalid cell on an alias column instead yields that
wrapped error. -/
theorem extractCell_missing_iff (lib : LibEnv) (row : List (String × PropValue)) :
    ((extractCell lib row).1 = 0 ∧
      ((extractCell lib row).2.2 = some .noH3Column ∨
        (extractCell lib row).2.2 = none)) ↔
    ∀ k ∈ row.map Prod.fst, isH3Column k = true →
      (parseCell lib ((row.lookup k).getD .null)).1 = 0 ∧
      (parseCell lib ((row.lookup k).getD .null)).2.2 = none := by
  by_cases hrow : row = []
  · subst hrow
    simp [extractCell]
  · have hsorted : ∀ k, k ∈ sortStrings (row.map Prod.fst) ↔ k ∈ row.map Prod.fst :=
      fun k => (List.perm_insertionSort _ (row.map Prod.fst)).mem_iff
    rw [show extractCell lib row = extractCellLoop lib row (sortStrings (row.map Prod.fst))
      from by rw [extractCell, if_neg hrow]]
    constructor
    · rintro ⟨h0, h1 | h1⟩
      · intro k hk hk3
        exact (extractCellLoop_iff lib row _).mp h1 k ((hsorted k).mpr hk) hk3
      · exact absurd h0 (extractCellLoop_none_ne_zero lib row _ h1)
    · intro hall
      have he : (extractCellLoop lib row (sortStrings (row.map Prod.fst))).2.2 =
          some .noH3Column :=
        (extractCellLoop_iff lib row _).mpr fun k hk hk3 =>
          hall k ((hsorted k).mp hk) hk3
      exact ⟨extractCellLoop_some_zero lib row _ _ he, Or.inl he⟩

/-- C10 (implicit claim, confirmed): `build.Run` silently replaces any
`PropertyByteCap ≤ 0` (including the CLI's documented `0 = disable`)
with the 2048-byte default, so a row whose serialized properties
measure more than 2048 bytes is still dropped with reason
`property_cap` — the cap can never actually be disabled. -/
theorem property_cap_default_enforced (lib : LibEnv) (cfg : ProcessConfig) (row : Row)
    (hdef : cfg.PropertyCap = effectivePropertyCap cfg.Options)
    (hcap0 : cfg.Options.PropertyByteCap ≤ 0)
    (h0 : row.Err = none)
    (h1 : ¬(0 ≤ cfg.Options.MinResolution ∧ row.Resolution < cfg.Options.MinResolution))
    (h2 : ¬(0 ≤ cfg.Options.MaxResolution ∧ row.Resolution > cfg.Options.MaxResolution))
    (hbytes : 2048 < (buildFeature lib cfg row).PropertyBytes) :
    effectivePropertyCap cfg.Options = 2048 ∧
    (buildFeature lib cfg row).Dropped = true ∧
    (buildFeature lib cfg row).DropReason = "property_cap" := by
  have hec : effectivePropertyCap cfg.Options = 2048 := by
    unfold effectivePropertyCap
    rw [if_pos hcap0]
    norm_num
  have hcap : cfg.PropertyCap = 2048 := hdef.trans hec
  have hboth : (buildFeature lib cfg row).Dropped = true ∧
      (buildFeature lib cfg row).DropReason = "property_cap" := by
    simp only [buildFeature, h0] at hbytes ⊢
    rw [if_neg h1, if_neg h2] at hbytes ⊢
    cases hmsc : lib.marshal (cfg.Quantizer.Apply (setKey (setKey
        (match cfg.Filter with
         | some f => f.Apply lib.globMatch row.Properties
         | none => row.Properties) "h3" (.str row.CellString))
        "resolution" (.int row.Resolution))).1 with
    | none =>
      rw [hmsc] at hbytes
      simp [initResult] at hbytes
    | some pj =>
      rw [hmsc] at hbytes
      dsimp only at hbytes ⊢
      by_cases hcond : 0 < cfg.PropertyCap ∧ (pj.length : ℤ) > cfg.PropertyCap
      · rw [if_pos hcond]
        exact ⟨rfl, rfl⟩
      · rw [if_neg hcond] at hbytes
        cases hpoly : polygonFromCell lib row.Cell with
        | error e =>
          rw [hpoly] at hbytes
          dsimp only at hbytes
          exact absurd ⟨by omega, by rw [hcap]; exact_mod_cast hbytes⟩ hcond
        | ok poly =>
          rw [hpoly] at hbytes
          dsimp only at hbytes
          exact absurd ⟨by omega, by rw [hcap]; exact_mod_cast hbytes⟩ hcond
  exact ⟨hec, hboth⟩

/-- C10 witness. -/
theorem property_cap_default_enforced_witness :
    (⟨⟨-1, -1, -1, -1, [], [], false, 1, 0⟩, 1,
        effectivePropertyCap ⟨-1, -1, -1, -1, [], [], false, 1, 0⟩,
        ⟨0, 0, []⟩, none⟩ : ProcessConfig).PropertyCap =
      effectivePropertyCap (⟨⟨-1, -1, -1, -1, [], [], false, 1, 0⟩, 1,
        effectivePropertyCap ⟨-1, -1, -1, -1, [], [], false, 1, 0⟩,
        ⟨0, 0, []⟩, none⟩ : ProcessConfig).Options ∧
    (⟨⟨-1, -1, -1, -1, [], [], false, 1, 0⟩, 1,
        effectivePropertyCap ⟨-1, -1, -1, -1, [], [], false, 1, 0⟩,
        ⟨0, 0, []⟩, none⟩ : ProcessConfig).Options.PropertyByteCap ≤ 0 ∧
    (⟨1, 5, "cs", 8, [], none⟩ : Row).Err = none ∧
    2048 < (buildFeature bigLib
      ⟨⟨-1, -1, -1, -1, [], [], false, 1, 0⟩, 1,
        effectivePropertyCap ⟨-1, -1, -1, -1, [], [], false, 1, 0⟩,
        ⟨0, 0, []⟩, none⟩
      ⟨1, 5, "cs", 8, [], none⟩).PropertyBytes ∧
    (effectivePropertyCap (⟨⟨-1, -1, -1, -1, [], [], false, 1, 0⟩, 1,
        effectivePropertyCap ⟨-1, -1, -1, -1, [], [], false, 1, 0⟩,
        ⟨0, 0, []⟩, none⟩ : ProcessConfig).Options = 2048 ∧
      (buildFeature bigLib
        ⟨⟨-1, -1, -1, -1, [], [], false, 1, 0⟩, 1,
          effectivePropertyCap ⟨-1, -1, -1, -1, [], [], false, 1, 0⟩,
          ⟨0, 0, []⟩, none⟩
        ⟨1, 5, "cs", 8, [], none⟩).Dropped = true ∧
      (buildFeature bigLib
        ⟨⟨-1, -1, -1, -1, [], [], false, 1, 0⟩, 1,
          effectivePropertyCap ⟨-1, -1, -1, -1, [], [], false, 1, 0⟩,
          ⟨0, 0, []⟩, none⟩
        ⟨1, 5, "cs", 8, [], none⟩).DropReason = "property_cap") := by
  have hb : 2048 < (buildFeature bigLib
      ⟨⟨-1, -1, -1, -1, [], [], false, 1, 0⟩, 1,
        effectivePropertyCap ⟨-1, -1, -1, -1, [], [], false, 1, 0⟩,
        ⟨0, 0, []⟩, none⟩
      ⟨1, 5, "cs", 8, [], none⟩).PropertyBytes := by
    simp only [buildFeature]
    rw [if_neg (by decide), if_neg (by decide)]
    rw [show bigLib.marshal ((⟨0, 0, []⟩ : Quantizer).Apply (setKey (setKey
        ([] : List (String × PropValue)) "h3" (.str "cs")) "resolution" (.int 8))).1 =
      some (String.mk (List.replicate 2049 'a')) from rfl]
    dsimp only
    rw [apply_ite FeatureResult.PropertyBytes]
    rw [show polygonFromCell bigLib 5 = Except.ok [((0:ℚ), (0:ℚ)), (0, 1), (1, 0), (0, 0)]
      from rfl]
    dsimp only
    rw [ite_self]
    show 2048 < (List.replicate 2049 'a').length
    rw [List.length_replicate]
    norm_num
  exact ⟨rfl, by decide, rfl, hb,
    property_cap_default_enforced bigLib
      ⟨⟨-1, -1, -1, -1, [], [], false, 1, 0⟩, 1,
        effectivePropertyCap ⟨-1, -1, -1, -1, [], [], false, 1, 0⟩,
        ⟨0, 0, []⟩, none⟩
      ⟨1, 5, "cs", 8, [], none⟩ rfl (by decide) rfl (by decide) (by decide) hb⟩

theorem klookup_eq_none_iff (k : ℕ) (p : List (ℕ × FeatureResult)) :
    klookup k p = none ↔ k ∉ p.map Prod.fst := by
  induction p with
  | nil => simp [klookup]
  | cons kv rest ih =>
    rcases kv with ⟨k2, v⟩
    by_cases hk : k2 = k
    · subst hk
      simp [klookup]
    · simp [klookup, hk, ih, Ne.symm hk]

theorem klookup_some_mem (k : ℕ) (p : List (ℕ × FeatureResult)) (v : FeatureResult)
    (h : klookup k p = some v) : (k, v) ∈ p := by
  induction p with
  | nil => simp [klookup] at h
  | cons kv rest ih =>
    rcases kv with ⟨k2, w⟩
    by_cases hk : k2 = k
    · subst hk
      simp [klookup] at h
      simp [h]
    · simp [klookup, hk] at h
      exact List.mem_cons_of_mem _ (ih h)

theorem kerase_map_fst (k : ℕ) (p : List (ℕ × FeatureResult)) :
    (kerase k p).map Prod.fst = (p.map Prod.fst).erase k := by
  induction p with
  | nil => rfl
  | cons kv rest ih =>
    rcases kv with ⟨k2, v⟩
    by_cases hk : k2 = k
    · subst hk
      simp [kerase, List.erase_cons]
    · simp [kerase, hk, List.erase_cons, ih]

theorem kerase_sub (k : ℕ) (p : List (ℕ × FeatureResult)) :
    ∀ x ∈ kerase k p, x ∈ p := by
  induction p with
  | nil => intro x hx; simp [kerase] at hx
  | cons kv rest ih =>
    rcases kv with ⟨k2, v⟩
    intro x hx
    by_cases hk : k2 = k
    · subst hk
      simp [kerase] at hx
      exact List.mem_cons_of_mem _ hx
    · simp [kerase, hk] at hx
      rcases hx with hx | hx
      · simp [hx]
      · exact List.mem_cons_of_mem _ (ih x hx)

theorem kerase_length (k : ℕ) (p : List (ℕ × FeatureResult)) (v : FeatureResult)
    (h : klookup k p = some v) : (kerase k p).length + 1 = p.length := by
  induction p with
  | nil => simp [klookup] at h
  | cons kv rest ih =>
    rcases kv with ⟨k2, w⟩
    by_cases hk : k2 = k
    · subst hk
      simp [kerase]
    · simp [klookup, hk] at h
      simp [kerase, hk, ih h]

theorem drainLoop_spec (f : ℕ → FeatureResult) (n : ℕ) :
    ∀ (fuel : ℕ) (e : ℕ) (p : List (ℕ × FeatureResult)) (rem : List ℕ),
      p.length ≤ fuel →
      1 ≤ e →
      (∀ kv ∈ p, kv.2 = f kv.1) →
      (p.map Prod.fst).Nodup →
      ((List.range' 1 (e - 1)) ++ p.map Prod.fst ++ rem).Perm (List.range' 1 n) →
      ∃ e2 p2,
        drainLoop fuel ⟨e, p, (List.range' 1 (e - 1)).map f⟩ =
          ⟨e2, p2, (List.range' 1 (e2 - 1)).map f⟩ ∧
        1 ≤ e2 ∧
        (∀ kv ∈ p2, kv.2 = f kv.1) ∧
        (p2.map Prod.fst).Nodup ∧
        ((List.range' 1 (e2 - 1)) ++ p2.map Prod.fst ++ rem).Perm (List.range' 1 n) ∧
        klookup e2 p2 = none := by
  intro fuel
  induction fuel with
  | zero =>
    intro e p rem hlen he hval hnd hperm
    have hp : p = [] := List.length_eq_zero.mp (Nat.le_zero.mp hlen)
    subst hp
    exact ⟨e, [], rfl, he, by simp, by simp, hperm, rfl⟩
  | succ fuel ih =>
    intro e p rem hlen he hval hnd hperm
    cases hkl : klookup e p with
    | none =>
      refine ⟨e, p, ?_, he, hval, hnd, hperm, hkl⟩
      simp [drainLoop, hkl]
    | some fr =>
      have hmem : (e, fr) ∈ p := klookup_some_mem _ _ _ hkl
      have hfr : fr = f e := hval _ hmem
      have hkey : e ∈ p.map Prod.fst := List.mem_map.mpr ⟨(e, fr), hmem, rfl⟩
      have hlen2 : (kerase e p).length ≤ fuel := by
        have := kerase_length e p fr hkl
        omega
      have hval2 : ∀ kv ∈ kerase e p, kv.2 = f kv.1 :=
        fun kv hkv => hval kv (kerase_sub _ _ _ hkv)
      have hnd2 : ((kerase e p).map Prod.fst).Nodup := by
        rw [kerase_map_fst]
        exact hnd.erase e
      have hpe : (p.map Prod.fst).Perm (e :: (p.map Prod.fst).erase e) :=
        List.perm_cons_erase hkey
      have hone : 1 + (e - 1) = e := by omega
      have hrangee : List.range' 1 ((e + 1) - 1) = List.range' 1 (e - 1) ++ [e] := by
        rw [show (e + 1) - 1 = (e - 1) + 1 by omega, List.range'_1_concat, hone]
      have hperm2 : ((List.range' 1 ((e + 1) - 1)) ++ (kerase e p).map Prod.fst ++ rem).Perm
          (List.range' 1 n) := by
        rw [kerase_map_fst, hrangee, List.append_assoc (List.range' 1 (e - 1)),
          List.singleton_append]
        exact (((List.Perm.refl (List.range' 1 (e - 1))).append hpe.symm).append
          (List.Perm.refl rem)).trans hperm
      have hrel : (List.range' 1 (e - 1)).map f ++ [fr] =
          (List.range' 1 ((e + 1) - 1)).map f := by
        rw [hfr, hrangee, List.map_append]
        rfl
      obtain ⟨e2, p2, heq, he2, hval3, hnd3, hperm3, hkl3⟩ :=
        ih (e + 1) (kerase e p) rem hlen2 (by omega) hval2 hnd2 hperm2
      refine ⟨e2, p2, ?_, he2, hval3, hnd3, hperm3, hkl3⟩
      rw [show drainLoop (fuel + 1) ⟨e, p, (List.range' 1 (e - 1)).map f⟩ =
          drainLoop fuel ⟨e + 1, kerase e p, (List.range' 1 (e - 1)).map f ++ [fr]⟩
        from by simp [drainLoop, hkl], hrel, heq]

theorem buildFeature_rowNumber (lib : LibEnv) (cfg : ProcessConfig) (row : Row) :
    (buildFeature lib cfg row).RowNumber = row.RowNumber := by
  unfold buildFeature
  repeat' split
  all_goals simp only [initResult]
  repeat' split
  all_goals rfl

theorem reasm_fold_spec (f : ℕ → FeatureResult) (n : ℕ) :
    ∀ (arr : List FeatureResult) (e : ℕ) (p : List (ℕ × FeatureResult)),
      1 ≤ e →
      (∀ kv ∈ p, kv.2 = f kv.1) →
      (p.map Prod.fst).Nodup →
      klookup e p = none →
      (∀ r ∈ arr, r = f r.RowNumber) →
      ((List.range' 1 (e - 1)) ++ p.map Prod.fst ++
        arr.map FeatureResult.RowNumber).Perm (List.range' 1 n) →
      (arr.foldl reasmStep ⟨e, p, (List.range' 1 (e - 1)).map f⟩).released =
        (List.range' 1 n).map f := by
  intro arr
  induction arr with
  | nil =>
    intro e p he hval hnd hkl _ hperm
    have hlen := hperm.length_eq
    simp [List.length_range'] at hlen
    have hen : n < e := by
      by_contra hc
      push_neg at hc
      have hein : e ∈ List.range' 1 n := List.mem_range'_1.mpr ⟨he, by omega⟩
      have hl := hperm.symm.subset hein
      simp only [List.mem_append, List.mem_range'_1] at hl
      rcases hl with (hl | hl) | hl
      · omega
      · exact (klookup_eq_none_iff e p).mp hkl hl
      · simp at hl
    have hpn : p.length = 0 ∧ e - 1 = n := by omega
    have hp : p = [] := List.length_eq_zero.mp hpn.1
    subst hp
    simp only [List.foldl_nil]
    rw [hpn.2]
  | cons r arr ih =>
    intro e p he hval hnd hkl harr hperm
    simp only [List.foldl_cons]
    have hr : r = f r.RowNumber := harr r (by simp)
    have hndall : ((List.range' 1 (e - 1)) ++ p.map Prod.fst ++
        (r :: arr).map FeatureResult.RowNumber).Nodup :=
      hperm.symm.nodup (List.nodup_range' 1 n)
    have hrn_notin : r.RowNumber ∉ p.map Prod.fst := by
      intro hmem
      have := (List.nodup_append.mp hndall).2.2
      exact this (List.mem_append_right _ hmem) (by simp)
    have hval2 : ∀ kv ∈ (r.RowNumber, r) :: p, kv.2 = f kv.1 := by
      intro kv hkv
      rcases List.mem_cons.mp hkv with hkv | hkv
      · subst hkv
        exact hr
      · exact hval kv hkv
    have hnd2 : (((r.RowNumber, r) :: p).map Prod.fst).Nodup := by
      simp only [List.map_cons, List.nodup_cons]
      exact ⟨hrn_notin, hnd⟩
    have hperm2 : ((List.range' 1 (e - 1)) ++ ((r.RowNumber, r) :: p).map Prod.fst ++
        arr.map FeatureResult.RowNumber).Perm (List.range' 1 n) := by
      simp only [List.map_cons]
      refine List.Perm.trans ?_ hperm
      simp only [List.map_cons, List.append_assoc]
      refine (List.Perm.refl (List.range' 1 (e - 1))).append ?_
      exact List.perm_middle.symm
    obtain ⟨e2, p2, heq, he2, hval3, hnd3, hperm3, hkl3⟩ :=
      drainLoop_spec f n (((r.RowNumber, r) :: p).length) e ((r.RowNumber, r) :: p)
        (arr.map FeatureResult.RowNumber) le_rfl he hval2 hnd2 hperm2
    rw [show reasmStep ⟨e, p, (List.range' 1 (e - 1)).map f⟩ r =
        drainLoop ((r.RowNumber, r) :: p).length
          ⟨e, (r.RowNumber, r) :: p, (List.range' 1 (e - 1)).map f⟩ from rfl, heq]
    exact ih e2 p2 he2 hval3 hnd3 hkl3
      (fun x hx => harr x (List.mem_cons_of_mem _ hx)) hperm3

/-- C2: the reassembly loop releases results strictly in increasing,
contiguous sequence order. For a fixed input (rows numbered 1..n and
the pure per-row function `buildFeature`), *any* order in which the
per-row results reach the results channel — which is where every choice
of worker count and scheduling shows up — yields the same released
sequence: the per-row results in row order. In particular a result for
row N+k is only released after rows 1..N+k−1, and the emitted feature
sequence (content and order) is identical for any two runs. -/
theorem reassembly_deterministic (lib : LibEnv) (cfg : ProcessConfig) (n : ℕ)
    (rows : ℕ → Row) (hrows : ∀ i, (rows i).RowNumber = i)
    (arrivals : List FeatureResult)
    (hperm : arrivals.Perm
      ((List.range' 1 n).map fun i => buildFeature lib cfg (rows i))) :
    reassemble arrivals =
      (List.range' 1 n).map (fun i => buildFeature lib cfg (rows i)) ∧
    (reassemble arrivals).map FeatureResult.RowNumber = List.range' 1 n := by
  have hf : ∀ i, (buildFeature lib cfg (rows i)).RowNumber = i := by
    intro i
    rw [buildFeature_rowNumber]
    exact hrows i
  have harr : ∀ r ∈ arrivals, r = buildFeature lib cfg (rows r.RowNumber) := by
    intro r hr
    have hmem : r ∈ (List.range' 1 n).map fun i => buildFeature lib cfg (rows i) :=
      hperm.subset hr
    obtain ⟨i, _, rfl⟩ := List.mem_map.mp hmem
    rw [hf i]
  have hmapid : ((List.range' 1 n).map fun i => buildFeature lib cfg (rows i)).map
      FeatureResult.RowNumber = List.range' 1 n := by
    rw [List.map_map]
    calc (List.range' 1 n).map (FeatureResult.RowNumber ∘ fun i => buildFeature lib cfg (rows i))
        = (List.range' 1 n).map id := List.map_congr_left fun a _ => hf a
    _ = List.range' 1 n := List.map_id _
  have hpermN : ((List.range' 1 (1 - 1)) ++
      (([] : List (ℕ × FeatureResult)).map Prod.fst) ++
      arrivals.map FeatureResult.RowNumber).Perm (List.range' 1 n) := by
    simp only [List.map_nil, List.append_nil, List.nil_append]
    rw [show (1 : ℕ) - 1 = 0 from rfl, List.range'_zero, List.nil_append]
    exact (hperm.map FeatureResult.RowNumber).trans (by rw [hmapid])
  have hmain := reasm_fold_spec (fun i => buildFeature lib cfg (rows i)) n arrivals 1 []
    le_rfl (by simp) (by simp) rfl harr hpermN
  have hre : reassemble arrivals =
      (List.range' 1 n).map (fun i => buildFeature lib cfg (rows i)) := hmain
  refine ⟨hre, ?_⟩
  rw [hre, hmapid]

/-- C2 witness. -/
theorem reassembly_deterministic_witness :
    (∀ i, ((fun j => (⟨j, 5, "cs", 8, [], none⟩ : Row)) i).RowNumber = i) ∧
    ([buildFeature trivLib
        ⟨⟨-1, -1, -1, -1, [], [], false, 1, 0⟩, 1, 2048, ⟨0, 0, []⟩, none⟩
        ⟨2, 5, "cs", 8, [], none⟩,
      buildFeature trivLib
        ⟨⟨-1, -1, -1, -1, [], [], false, 1, 0⟩, 1, 2048, ⟨0, 0, []⟩, none⟩
        ⟨1, 5, "cs", 8, [], none⟩].Perm
      ((List.range' 1 2).map fun i => buildFeature trivLib
        ⟨⟨-1, -1, -1, -1, [], [], false, 1, 0⟩, 1, 2048, ⟨0, 0, []⟩, none⟩
        ((fun j => (⟨j, 5, "cs", 8, [], none⟩ : Row)) i))) ∧
    (reassemble [buildFeature trivLib
        ⟨⟨-1, -1, -1, -1, [], [], false, 1, 0⟩, 1, 2048, ⟨0, 0, []⟩, none⟩
        ⟨2, 5, "cs", 8, [], none⟩,
      buildFeature trivLib
        ⟨⟨-1, -1, -1, -1, [], [], false, 1, 0⟩, 1, 2048, ⟨0, 0, []⟩, none⟩
        ⟨1, 5, "cs", 8, [], none⟩] =
      (List.range' 1 2).map (fun i => buildFeature trivLib
        ⟨⟨-1, -1, -1, -1, [], [], false, 1, 0⟩, 1, 2048, ⟨0, 0, []⟩, none⟩
        ((fun j => (⟨j, 5, "cs", 8, [], none⟩ : Row)) i)) ∧
     (reassemble [buildFeature trivLib
        ⟨⟨-1, -1, -1, -1, [], [], false, 1, 0⟩, 1, 2048, ⟨0, 0, []⟩, none⟩
        ⟨2, 5, "cs", 8, [], none⟩,
      buildFeature trivLib
        ⟨⟨-1, -1, -1, -1, [], [], false, 1, 0⟩, 1, 2048, ⟨0, 0, []⟩, none⟩
        ⟨1, 5, "cs", 8, [], none⟩]).map FeatureResult.RowNumber = List.range' 1 2) := by
  have hperm2 : ([buildFeature trivLib
        ⟨⟨-1, -1, -1, -1, [], [], false, 1, 0⟩, 1, 2048, ⟨0, 0, []⟩, none⟩
        ⟨2, 5, "cs", 8, [], none⟩,
      buildFeature trivLib
        ⟨⟨-1, -1, -1, -1, [], [], false, 1, 0⟩, 1, 2048, ⟨0, 0, []⟩, none⟩
        ⟨1, 5, "cs", 8, [], none⟩].Perm
      ((List.range' 1 2).map fun i => buildFeature trivLib
        ⟨⟨-1, -1, -1, -1, [], [], false, 1, 0⟩, 1, 2048, ⟨0, 0, []⟩, none⟩
        ((fun j => (⟨j, 5, "cs", 8, [], none⟩ : Row)) i))) := by
    rw [show List.range' 1 2 = [1, 2] from rfl]
    simp only [List.map_cons, List.map_nil]
    exact List.Perm.swap _ _ _
  exact ⟨fun i => rfl, hperm2,
    reassembly_deterministic trivLib
      ⟨⟨-1, -1, -1, -1, [], [], false, 1, 0⟩, 1, 2048, ⟨0, 0, []⟩, none⟩ 2
      (fun j => (⟨j, 5, "cs", 8, [], none⟩ : Row)) (fun i => rfl) _ hperm2⟩
